import Mathlib

/-!
Verification of the Cloud Spanner session pool and retry machinery of the
smyte/google-cloud-go repository (spanner/retry.go and spanner/session.go),
via a shallow embedding of the relevant Go code into Lean.

Machine integers (`uint64`) are modelled as `Nat` (no overflow occurs in the
fragments embedded here: the counters only move by increments and guarded
decrements), wall-clock instants (`time.Time`) as `Int`, and Go errors as
`Option SpanError` (with `none` for `nil`).
-/

set_option autoImplicit false

namespace SpannerPool

/-! ### Strings: Go strings.Contains -/

/-- `listStartsWith hay sub` is true when `sub` is a prefix of `hay`
(character lists). -/
def listStartsWith : List Char → List Char → Bool
  | _, [] => true
  | [], _ :: _ => false
  | c :: cs, d :: ds => c = d && listStartsWith cs ds

/-- `listHasSub sub hay` is true when `sub` occurs contiguously inside `hay`. -/
def listHasSub (sub : List Char) : List Char → Bool
  | [] => sub.isEmpty
  | c :: cs => listStartsWith (c :: cs) sub || listHasSub sub cs

/-- Model of Go `strings.Contains(s, sub)`. -/
def strContains (s sub : String) : Bool :=
  listHasSub sub.toList s.toList

/-! ### Errors: gRPC codes and the spanner Error carrier -/

/-- The gRPC status codes used by the embedded code. -/
inductive Code where
  | ok
  | canceled
  | unknown
  | invalidArgument
  | deadlineExceeded
  | notFound
  | aborted
  | internal
  | unavailable
  deriving DecidableEq, Repr

/-- A Cloud Spanner error value: a status code, a description, and (model of
the RPC trailer) the decoded server-supplied RetryInfo delay when present. -/
structure SpanError where
  code : Code
  desc : String
  retryInfo : Option Nat
  deriving DecidableEq, Repr

/-- `ErrCode` extracts the status code of an error; a `nil` error has none of
the codes the predicates below look for, modelled as `Code.ok`. -/
def ErrCode : Option SpanError → Code
  | none => Code.ok
  | some e => e.code

/-- `ErrDesc` extracts the description of an error. -/
def ErrDesc : Option SpanError → String
  | none => ""
  | some e => e.desc

/-! ### retry.go: error classification -/

/-- `isErrorClosing` reports whether the error is generated by the gRPC layer
talking to a closed server (Internal code, "transport is closing"). -/
def isErrorClosing (err : Option SpanError) : Bool :=
  match err with
  | none => false
  | some _ =>
    if ErrCode err = Code.internal ∧ strContains (ErrDesc err) "transport is closing" = true then
      true
    else
      false

/-- `isErrorRST` reports whether the error is generated by the gRPC client
receiving a RST frame from the server. -/
def isErrorRST (err : Option SpanError) : Bool :=
  match err with
  | none => false
  | some _ =>
    if ErrCode err = Code.internal ∧
        strContains (ErrDesc err) "stream terminated by RST_STREAM" = true then
      true
    else
      false

/-- `isErrorUnexpectedEOF` reports whether the error is generated by the gRPC
layer receiving io.EOF unexpectedly (Internal for grpc >= 1.14.0, Unknown for
older versions). -/
def isErrorUnexpectedEOF (err : Option SpanError) : Bool :=
  match err with
  | none => false
  | some _ =>
    if ErrCode err = Code.internal ∧ strContains (ErrDesc err) "unexpected EOF" = true then
      true
    else if ErrCode err = Code.unknown ∧ strContains (ErrDesc err) "unexpected EOF" = true then
      true
    else
      false

/-- `isErrorUnavailable` reports whether the error says the server is
unavailable. -/
def isErrorUnavailable (err : Option SpanError) : Bool :=
  match err with
  | none => false
  | some _ =>
    if ErrCode err = Code.unavailable then true else false

/-- `isRetryable` reports whether a Cloud Spanner error is retryable. -/
def isRetryable (err : Option SpanError) : Bool :=
  if isErrorClosing err then true
  else if isErrorUnexpectedEOF err then true
  else if isErrorRST err then true
  else if isErrorUnavailable err then true
  else false

/-- `shouldDropSession` reports whether an error means the session should be
removed (Cloud Spanner can no longer locate it). -/
def shouldDropSession (err : Option SpanError) : Bool :=
  match err with
  | none => false
  | some _ =>
    if ErrCode err = Code.notFound ∧ strContains (ErrDesc err) "Session not found" = true then
      true
    else
      false

/-! ### Spec-side formulations for claim C7 -/

/-- The spec's characterisation of retryable errors: code Unavailable, or code
Internal with one of three message markers, or code Unknown with the
unexpected-EOF marker. -/
def RetryableSpec (err : Option SpanError) : Prop :=
  ∃ e, err = some e ∧
    (e.code = Code.unavailable ∨
      (e.code = Code.internal ∧
        (strContains e.desc "transport is closing" = true ∨
          strContains e.desc "stream terminated by RST_STREAM" = true ∨
          strContains e.desc "unexpected EOF" = true)) ∨
      (e.code = Code.unknown ∧ strContains e.desc "unexpected EOF" = true))

/-- The spec's characterisation of drop-session errors: code NotFound with a
message saying the session is missing. -/
def DropSessionSpec (err : Option SpanError) : Prop :=
  ∃ e, err = some e ∧ e.code = Code.notFound ∧
    strContains e.desc "Session not found" = true

/-! ### session.go: session and session pool state

A `session` is embedded as a record of its mutable fields; the pool's two
`container/list` idle lists are embedded as lists of session ids (front of the
Go list = head of the Lean list, `PushBack` = append).  The `mayGetSession`
broadcast channel is embedded as a generation counter `wakeGen` that is bumped
each time the channel is closed and replaced. -/

structure Session where
  id : String
  /-- validity flag; cleared by `invalidate`. -/
  valid : Bool
  /-- `tx`: the pre-begun write transaction id, `none` when absent. -/
  tx : Option Nat
  /-- whether `idleList` (the session's element pointer into an idle list) is
  non-nil, i.e. the session is linked into one of the pool's idle lists. -/
  idleLink : Bool
  /-- timestamp of the next scheduled healthcheck (UnixNano). -/
  nextCheck : Int
  /-- index in the healthcheck heap, `-1` when unregistered. -/
  hcIndex : Int
  deriving DecidableEq, Repr

structure SessionPool where
  valid : Bool
  idleList : List String
  idleWriteList : List String
  numOpened : Nat
  createReqs : Nat
  MinOpened : Nat
  MaxOpened : Nat
  MaxBurst : Nat
  MaxIdle : Nat
  /-- generation of the `mayGetSession` channel; close-and-replace bumps it. -/
  wakeGen : Nat
  deriving DecidableEq, Repr

/-- `sessionPool.recycle`: puts session `s` back to the pool's idle lists.
Rejects when the session or the pool is invalid; otherwise pushes the session
to the back of `idleWriteList` when it is write-prepared (`tx` set) and to the
back of `idleList` otherwise, sets the session's idle-list link, and
broadcasts by closing and replacing `mayGetSession`. -/
def SessionPool.recycle (p : SessionPool) (s : Session) : Bool × SessionPool × Session :=
  if s.valid = false ∨ p.valid = false then
    (false, p, s)
  else if s.tx.isSome then
    (true,
      { p with idleWriteList := p.idleWriteList ++ [s.id], wakeGen := p.wakeGen + 1 },
      { s with idleLink := true })
  else
    (true,
      { p with idleList := p.idleList ++ [s.id], wakeGen := p.wakeGen + 1 },
      { s with idleLink := true })

/-- `sessionPool.remove`: atomically removes session `s` from the pool and
invalidates it.  When `isExpire` is set the removal is triggered by session
expiration, and only an idle session may be removed, and only while
`numOpened > MinOpened`.  The decrement of `numOpened` and the broadcast
happen only when `invalidate` reports the session was still valid. -/
def SessionPool.remove (p : SessionPool) (s : Session) (isExpire : Bool) :
    Bool × SessionPool × Session :=
  if isExpire = true ∧ (p.numOpened ≤ p.MinOpened ∨ s.idleLink = false) then
    (false, p, s)
  else
    let ol := s.idleLink
    let s1 := { s with idleLink := false }
    let p1 :=
      if ol then
        { p with idleList := p.idleList.erase s.id,
                 idleWriteList := p.idleWriteList.erase s.id }
      else p
    if s1.valid then
      (true,
        { p1 with numOpened := p1.numOpened - 1, wakeGen := p1.wakeGen + 1 },
        { s1 with valid := false })
    else
      (false, p1, s1)

/-! ### session.go: session handle

The handle world records everything a `sessionHandle` operation can touch
beyond the pool: the healthcheck queue membership and the log of
`DeleteSession` RPCs issued by `session.destroy`. -/

structure HandleWorld where
  pool : SessionPool
  hcQueue : List String
  deleted : List String
  deriving DecidableEq, Repr

/-- `session.destroy(false)`: remove the session from its pool; when the
removal succeeds, unregister it from the healthcheck queue and issue the
best-effort `DeleteSession` RPC. -/
def sessionDestroyWorld (s : Session) (w : HandleWorld) : HandleWorld :=
  let r := SessionPool.remove w.pool s false
  if r.1 then
    { pool := r.2.1, hcQueue := w.hcQueue.erase s.id, deleted := w.deleted ++ [s.id] }
  else
    { w with pool := r.2.1 }

/-- `sessionHandle.recycle` (release): a handle that has already been
consumed does nothing; otherwise the inner session's write token is cleared
(`session.recycle` calls `setTransactionID(nil)`), the session is offered
back to its pool, and a pool rejection downgrades to `destroy`. -/
def sessionHandleRecycle : Option Session × HandleWorld → Option Session × HandleWorld
  | (none, w) => (none, w)
  | (some s, w) =>
    let s0 := { s with tx := none }
    let r := SessionPool.recycle w.pool s0
    if r.1 then
      (none, { w with pool := r.2.1 })
    else
      (none, sessionDestroyWorld r.2.2 w)

/-- `sessionHandle.destroy`: consumes the handle's session pointer; only the
first call reaches `session.destroy`. -/
def sessionHandleDestroy : Option Session × HandleWorld → Option Session × HandleWorld
  | (none, w) => (none, w)
  | (some s, w) => (none, sessionDestroyWorld s w)

/-- `sessionHandle.getID`: empty string once the handle has been
recycled or destroyed. -/
def sessionHandleGetID : Option Session × HandleWorld → String
  | (none, _) => ""
  | (some s, _) => s.id

/-! ### session.go: the inline health check in the acquisition loop -/

/-- Outcome of `sessionPool.isHealthy` on a session popped by
`take`/`takeWriteSession`, together with what it did: whether the session was
pinged, whether it was destroyed, and whether its next check was
rescheduled. -/
structure HealthOutcome where
  healthy : Bool
  pinged : Bool
  destroyed : Bool
  rescheduled : Bool
  deriving DecidableEq, Repr

/-- `sessionPool.isHealthy`: when the session's next-check deadline plus twice
the health-check interval is before `now`, ping it; a ping error that
`shouldDropSession` recognises destroys the session and reports unhealthy;
any other ping outcome reschedules the check and reports healthy.  A session
whose deadline is recent enough is reported healthy without a ping.
`pingErr` is the result of `session.ping()` (`none` on success). -/
def sessionPoolIsHealthy (now interval nextCheck : Int) (pingErr : Option SpanError) :
    HealthOutcome :=
  if nextCheck + 2 * interval < now then
    if shouldDropSession pingErr then
      { healthy := false, pinged := true, destroyed := true, rescheduled := false }
    else
      { healthy := true, pinged := true, destroyed := false, rescheduled := true }
  else
    { healthy := true, pinged := false, destroyed := false, rescheduled := false }

/-- The tail of one `take`/`takeWriteSession` loop iteration after a session
has been popped from an idle list: return a handle when `isHealthy` holds,
restart the loop otherwise.  `true` = a handle for the popped session is
returned, `false` = the acquisition restarts from the top of the loop. -/
def takeCheckSession (now interval nextCheck : Int) (pingErr : Option SpanError) : Bool :=
  (sessionPoolIsHealthy now interval nextCheck pingErr).healthy

/-! ### session.go: maxUint64 / minUint64 and the maintainer's target -/

/-- `maxUint64` returns the maximum of two uint64. -/
def maxUint64 (a b : Nat) : Nat :=
  if a > b then a else b

/-- `minUint64` returns the minimum of two uint64. -/
def minUint64 (a b : Nat) : Nat :=
  if a > b then b else a

/-- The `maxSessionsInUse` value used by `healthChecker.maintainer` on one
iteration: the variable is declared inside the `for` loop, so it is `0` when
the update `if iteration%windowSize == 0 || maxSessionsInUse <
currSessionsInUse { maxSessionsInUse = currSessionsInUse }` runs. -/
def maintainerMaxInUse (iteration curr : Nat) : Nat :=
  let m : Nat := 0
  if iteration % 10 = 0 ∨ m < curr then curr else m

/-- The session-pool configuration fields read by the counter-level model. -/
structure PoolCfg where
  MinOpened : Nat
  MaxOpened : Nat
  MaxBurst : Nat
  MaxIdle : Nat
  deriving DecidableEq, Repr

/-- `sessionsToKeep` as computed by one iteration of
`healthChecker.maintainer` from the sampled `numOpened` and in-use count. -/
def maintainerSessionsToKeep (c : PoolCfg) (iteration currOpened currInUse : Nat) : Nat :=
  maxUint64 c.MinOpened (minUint64 currOpened (c.MaxIdle + maintainerMaxInUse iteration currInUse))

/-- The target the spec describes: `max(MinOpened, min(numOpened, MaxIdle +
runningMaxInUse))` with `runningMaxInUse` the maximum of the in-use counts
over the most recent sliding window of 10 samples (`recentInUse` lists the
samples most recent first). -/
def specSessionsToKeep (c : PoolCfg) (currOpened : Nat) (recentInUse : List Nat) : Nat :=
  maxUint64 c.MinOpened
    (minUint64 currOpened (c.MaxIdle + (recentInUse.take 10).foldr Nat.max 0))

/-! ### Counter-level transition system for the creation-budget caps

Each step below is one atomic pool-mutex-protected section of
`sessionPool.take` / `sessionPool.takeWriteSession` /
`sessionPool.createSession` / `healthChecker.maintainer` /
`healthChecker.replenishPool`, plus the idle-list traffic (pop, recycle,
remove) that those counters interact with.  `createReqs` is split into the
contributions of the acquisition paths (`createReqsTake`) and of the singleton
maintainer (`createReqsRepl`); the Go field is their sum.  `replTarget` holds
the `sessionsToKeep` argument of a `replenishPool` call in progress. -/

structure CounterState where
  numOpened : Nat
  idleLen : Nat
  idleWriteLen : Nat
  createReqsTake : Nat
  createReqsRepl : Nat
  replTarget : Option Nat
  deriving DecidableEq, Repr

/-- The Go `sessionPool.createReqs` counter. -/
def CounterState.createReqs (s : CounterState) : Nat :=
  s.createReqsTake + s.createReqsRepl

/-- The pool starts empty (`newSessionPool` creates no sessions). -/
def initCounterState : CounterState :=
  { numOpened := 0, idleLen := 0, idleWriteLen := 0,
    createReqsTake := 0, createReqsRepl := 0, replTarget := none }

inductive PoolStep where
  /-- `take`/`takeWriteSession` lines: both idle lists empty, the `MaxOpened`
  and `MaxBurst` guards pass, budget is taken
  (`numOpened++; createReqs++`). -/
  | takeBudget
  /-- `doneCreate` in `createSession` for an acquisition-path request:
  `createReqs--`, and `numOpened--` when the creation failed. -/
  | createDoneTake (ok : Bool)
  /-- `take`/`takeWriteSession` pops a session from an idle list
  (`write` selects which list). -/
  | popIdle (write : Bool)
  /-- `sessionPool.recycle` of a checked-out session, appending it to an idle
  list. -/
  | recycleStep (write : Bool)
  /-- `sessionPool.remove` of a session: from an idle list when `fromIdle`
  names one, of a checked-out session otherwise (`numOpened--`). -/
  | removeStep (fromIdle : Option Bool)
  /-- One maintainer sample (`healthChecker.maintainer` body): reads
  `numOpened` and the idle lengths under the pool lock, computes
  `sessionsToKeep`, and enters `replenishPool` when the target exceeds the
  sampled `numOpened`. -/
  | maintainerSample (iteration : Nat)
  /-- The budget-taking section of `healthChecker.replenishPool`:
  `sessionsToKeep > numOpened`, so `numOpened++; createReqs++` - with no
  `MaxOpened`/`MaxBurst` guard. -/
  | replenishBudget
  /-- `doneCreate` for the maintainer's creation request. -/
  | createDoneRepl (ok : Bool)
  /-- `replenishPool` returns (loop break or context timeout). -/
  | replenishFinish
  deriving DecidableEq, Repr

/-- One atomic step; `none` when the step's guard does not hold. -/
def applyPoolStep (c : PoolCfg) (s : CounterState) : PoolStep → Option CounterState
  | PoolStep.takeBudget =>
    if s.idleLen = 0 ∧ s.idleWriteLen = 0 ∧
        ¬(0 < c.MaxOpened ∧ c.MaxOpened ≤ s.numOpened) ∧
        ¬(0 < c.MaxBurst ∧ c.MaxBurst ≤ s.createReqs) then
      some { s with numOpened := s.numOpened + 1, createReqsTake := s.createReqsTake + 1 }
    else none
  | PoolStep.createDoneTake ok =>
    if 0 < s.createReqsTake then
      some { s with createReqsTake := s.createReqsTake - 1,
                    numOpened := if ok then s.numOpened else s.numOpened - 1 }
    else none
  | PoolStep.popIdle write =>
    if write then
      if 0 < s.idleWriteLen then some { s with idleWriteLen := s.idleWriteLen - 1 } else none
    else
      if 0 < s.idleLen then some { s with idleLen := s.idleLen - 1 } else none
  | PoolStep.recycleStep write =>
    if s.idleLen + s.idleWriteLen + s.createReqs < s.numOpened then
      if write then some { s with idleWriteLen := s.idleWriteLen + 1 }
      else some { s with idleLen := s.idleLen + 1 }
    else none
  | PoolStep.removeStep fromIdle =>
    match fromIdle with
    | some true =>
      if 0 < s.idleWriteLen then
        some { s with idleWriteLen := s.idleWriteLen - 1, numOpened := s.numOpened - 1 }
      else none
    | some false =>
      if 0 < s.idleLen then
        some { s with idleLen := s.idleLen - 1, numOpened := s.numOpened - 1 }
      else none
    | none =>
      if s.idleLen + s.idleWriteLen + s.createReqs < s.numOpened then
        some { s with numOpened := s.numOpened - 1 }
      else none
  | PoolStep.maintainerSample iteration =>
    if s.createReqsRepl = 0 then
      let currInUse := s.numOpened - s.idleLen - s.idleWriteLen
      let keep := maintainerSessionsToKeep c iteration s.numOpened currInUse
      some { s with replTarget := if s.numOpened < keep then some keep else none }
    else none
  | PoolStep.replenishBudget =>
    match s.replTarget with
    | some t =>
      if s.createReqsRepl = 0 ∧ s.numOpened < t then
        some { s with numOpened := s.numOpened + 1, createReqsRepl := 1 }
      else none
    | none => none
  | PoolStep.createDoneRepl ok =>
    if s.createReqsRepl = 1 then
      some { s with createReqsRepl := 0,
                    numOpened := if ok then s.numOpened else s.numOpened - 1 }
    else none
  | PoolStep.replenishFinish =>
    if s.createReqsRepl = 0 then some { s with replTarget := none } else none

/-- Run a sequence of steps; `none` when some guard fails. -/
def runPoolSteps (c : PoolCfg) (s : CounterState) : List PoolStep → Option CounterState
  | [] => some s
  | step :: rest =>
    match applyPoolStep c s step with
    | some s1 => runPoolSteps c s1 rest
    | none => none

/-- Claim C1 as stated: along every execution of the counter system both
configured caps hold whenever they are positive. -/
def C1ClaimHolds : Prop :=
  ∀ (c : PoolCfg) (steps : List PoolStep) (s : CounterState),
    runPoolSteps c initCounterState steps = some s →
    (0 < c.MaxOpened → s.numOpened ≤ c.MaxOpened) ∧
    (0 < c.MaxBurst → s.createReqs ≤ c.MaxBurst)

/-! ### retry.go: runRetryableNoWrap

The context is embedded as the instants at which the loop can observe its
cancellation: `doneTop k` holds when `ctx.Done()` is already closed at the
top-of-loop check of iteration `k`, and `doneSleep k` when the context fires
before the backoff sleep of iteration `k` completes.  `f` is embedded as the
error (or `nil`) its `k`-th invocation returns.  Durations are in
milliseconds. -/

structure CtxModel where
  /-- `true` when `ctx.Err() == context.DeadlineExceeded`. -/
  deadline : Bool
  doneTop : Nat → Bool
  doneSleep : Nat → Bool

/-- The Go rendering of `ctx.Err()`. -/
def ctxErrString (deadline : Bool) : String :=
  if deadline then "context deadline exceeded" else "context canceled"

/-- Modelled from the spec: rendering of an error value as `fmt.Sprintf`'s
`%v` verb sees it (`Error.Error()` lives in the error file that is not among
the sources); Go renders a nil error interface as `<nil>`.  Only the fact
that the rendering of the last inner error is embedded verbatim in the
cancellation message matters below. -/
def codeString : Code → String
  | Code.ok => "OK"
  | Code.canceled => "Canceled"
  | Code.unknown => "Unknown"
  | Code.invalidArgument => "InvalidArgument"
  | Code.deadlineExceeded => "DeadlineExceeded"
  | Code.notFound => "NotFound"
  | Code.aborted => "Aborted"
  | Code.internal => "Internal"
  | Code.unavailable => "Unavailable"

def errorString : Option SpanError → String
  | none => "<nil>"
  | some e => "spanner: code = " ++ codeString e.code ++ ", desc = " ++ e.desc

/-- `errContextCanceled` builds the error `runRetryableNoWrap` returns when
the context is cancelled: code DeadlineExceeded when the deadline fired and
Canceled otherwise, with message `"%v, lastErr is <%v>"` of `ctx.Err()` and
the last inner error. -/
def errContextCanceled (ctx : CtxModel) (lastErr : Option SpanError) : SpanError :=
  if ctx.deadline then
    { code := Code.deadlineExceeded,
      desc := ctxErrString true ++ ", lastErr is <" ++ errorString lastErr ++ ">",
      retryInfo := none }
  else
    { code := Code.canceled,
      desc := ctxErrString false ++ ", lastErr is <" ++ errorString lastErr ++ ">",
      retryInfo := none }

/-- Modelled from the spec: `extractRetryDelay` decodes the server-supplied
RetryInfo from the `google.rpc.retryinfo-bin` RPC trailer (metadata and
protobuf decoding are outside the model); the error carrier holds the decoded
delay when every decoding step would succeed. -/
def extractRetryDelay (e : SpanError) : Option Nat :=
  e.retryInfo

/-- Modelled from the spec: `backoff.DefaultBackoff.Delay` for a given attempt
count (the backoff package is not among the sources) - initial 100 ms,
multiplier 1.3, cap 60 s, in milliseconds. -/
def defaultBackoffDelay (retries : Nat) : Nat :=
  minUint64 60000 (100 * 13 ^ retries / 10 ^ retries)

/-- The backoff duration chosen after retryable error `e` on attempt
`retries`: the server-supplied delay when present, the default schedule
otherwise. -/
def backoffFor (e : SpanError) (retries : Nat) : Nat :=
  match extractRetryDelay e with
  | some d => d
  | none => defaultBackoffDelay retries

inductive RunResult where
  /-- `f` returned nil. -/
  | ok
  /-- `f` returned a non-retryable error, returned unchanged. -/
  | failed (e : SpanError)
  /-- the context was cancelled; the `errContextCanceled` value returned. -/
  | cancelled (e : SpanError)
  /-- fuel exhausted (the Go loop would still be running). -/
  | out
  deriving DecidableEq, Repr

/-- One execution of the `runRetryableNoWrap` loop from iteration `k` with
last inner error `lastErr`, bounded by `fuel` iterations.  Returns the
result, the list of completed backoff sleeps (milliseconds, in order), and
the number of invocations of `f` performed. -/
def runAux (ctx : CtxModel) (f : Nat → Option SpanError) :
    Nat → Nat → Option SpanError → RunResult × List Nat × Nat
  | 0, _, _ => (RunResult.out, [], 0)
  | fuel + 1, k, lastErr =>
    if ctx.doneTop k then
      (RunResult.cancelled (errContextCanceled ctx lastErr), [], 0)
    else
      match f k with
      | none => (RunResult.ok, [], 1)
      | some e =>
        if isRetryable (some e) then
          if ctx.doneSleep k then
            (RunResult.cancelled (errContextCanceled ctx (some e)), [], 1)
          else
            let r := runAux ctx f fuel (k + 1) (some e)
            (r.1, backoffFor e k :: r.2.1, r.2.2 + 1)
        else
          (RunResult.failed e, [], 1)

/-- `runRetryableNoWrap(ctx, f)`, bounded by `fuel` loop iterations. -/
def runRetryableNoWrap (ctx : CtxModel) (f : Nat → Option SpanError) (fuel : Nat) :
    RunResult × List Nat × Nat :=
  runAux ctx f fuel 0 none

/-- `sub` occurs contiguously in `s`. -/
def ContainsStr (s sub : String) : Prop :=
  ∃ a b, s = a ++ sub ++ b

/-! ### session.go: the healthcheck heap (`hcHeap`) and Go's `container/heap`

Sessions are identified by `Nat` ids; the heap is the list of ids in position
order, and `idx`/`check` give each session's `hcIndex` and `nextCheck` fields
(`setHcIndex`/`setNextCheck` update them).  `seen` records every id ever
pushed.  Go's generic `container/heap` algorithms (`up`, `down`, `Push`,
`Pop`, `Remove`, `Fix`) only touch the slice through the `hcHeap` interface
methods and are embedded below them. -/

structure HeapState where
  heap : List Nat
  idx : Nat → Int
  check : Nat → Int
  seen : List Nat

/-- A fresh checker queue; Go zero-values every session's `hcIndex` to `0`. -/
def initHeapState : HeapState :=
  { heap := [], idx := fun _ => 0, check := fun _ => 0, seen := [] }

/-- `session.setHcIndex` for session `id`. -/
def setIdx (st : HeapState) (id : Nat) (v : Int) : HeapState :=
  { st with idx := fun x => if x = id then v else st.idx x }

/-- `hcHeap.Less i j`: the session at position `i` has the earlier
`nextCheck`. -/
def hcLess (st : HeapState) (i j : Nat) : Bool :=
  decide (st.check (st.heap.getD i 0) < st.check (st.heap.getD j 0))

/-- `hcHeap.Swap i j`: swap the two positions, then rewrite both sessions'
stored indices (out-of-range arguments would panic in Go and are embedded as
the identity; every call below is in range). -/
def hcSwap (st : HeapState) (i j : Nat) : HeapState :=
  if i < st.heap.length ∧ j < st.heap.length then
    let a := st.heap.getD i 0
    let b := st.heap.getD j 0
    { st with
      heap := (st.heap.set i b).set j a,
      idx := fun x => if x = a then (j : Int) else if x = b then (i : Int) else st.idx x }
  else st

/-- `hcHeap.Push`: store the new session's index (the current length), then
append it; `scheduledHCLocked` has just set its `nextCheck` to `t`. -/
def hcPush (st : HeapState) (id : Nat) (t : Int) : HeapState :=
  { heap := st.heap ++ [id],
    idx := fun x => if x = id then (st.heap.length : Int) else st.idx x,
    check := fun x => if x = id then t else st.check x,
    seen := id :: st.seen }

/-- `hcHeap.Pop`: drop the last slice element and set its session's
`hcIndex` to `-1`. -/
def hcPopLast (st : HeapState) : HeapState :=
  match st.heap.getLast? with
  | none => st
  | some id =>
    { st with
      heap := st.heap.dropLast,
      idx := fun x => if x = id then (-1 : Int) else st.idx x }

/-- The child position `container/heap.down` sifts towards: the right child
`2*i+2` when it exists and sorts lower, the left child `2*i+1` otherwise. -/
def downChild (st : HeapState) (i n : Nat) : Nat :=
  if 2 * i + 2 < n ∧ hcLess st (2 * i + 2) (2 * i + 1) = true then 2 * i + 2 else 2 * i + 1

/-- The loop of `container/heap.down(h, i, n)`, with explicit fuel: the
sifted position strictly increases on every iteration and the loop exits once
`2*i+1 ≥ n`, so `n + 1` iterations always suffice and the fuel-exhausted
branch is unreachable from `heapDown`. -/
def heapDownF : Nat → HeapState → Nat → Nat → HeapState × Nat
  | 0, st, i, _ => (st, i)
  | fuel + 1, st, i, n =>
    if 2 * i + 1 < n then
      if hcLess st (downChild st i n) i then
        heapDownF fuel (hcSwap st i (downChild st i n)) (downChild st i n) n
      else (st, i)
    else (st, i)

/-- `container/heap.down(h, i, n)`; returns the final position of the sifted
element (Go's boolean result is `final position > i`). -/
def heapDown (st : HeapState) (i n : Nat) : HeapState × Nat :=
  heapDownF (n + 1) st i n

/-- The loop of `container/heap.up(h, j)`, with explicit fuel: the sifted
position strictly decreases on every iteration, so `j + 1` iterations always
suffice and the fuel-exhausted branch is unreachable from `heapUp`. -/
def heapUpF : Nat → HeapState → Nat → HeapState
  | 0, st, _ => st
  | fuel + 1, st, j =>
    if (j - 1) / 2 = j ∨ ¬ hcLess st j ((j - 1) / 2) = true then st
    else heapUpF fuel (hcSwap st ((j - 1) / 2) j) ((j - 1) / 2)

/-- `container/heap.up(h, j)`. -/
def heapUp (st : HeapState) (j : Nat) : HeapState :=
  heapUpF (j + 1) st j

/-- `container/heap.Push(h, x)`. -/
def goHeapPush (st : HeapState) (id : Nat) (t : Int) : HeapState :=
  let st1 := hcPush st id t
  heapUp st1 (st1.heap.length - 1)

/-- `container/heap.Pop(h)` (callers guard against the empty heap). -/
def goHeapPop (st : HeapState) : HeapState :=
  let n := st.heap.length - 1
  let st1 := hcSwap st 0 n
  hcPopLast (heapDown st1 0 n).1

/-- `container/heap.Remove(h, i)`. -/
def goHeapRemove (st : HeapState) (i : Nat) : HeapState :=
  let n := st.heap.length - 1
  if i = n then hcPopLast st
  else
    let st1 := hcSwap st i n
    let d := heapDown st1 i n
    hcPopLast (if d.2 = i then heapUp d.1 i else d.1)

/-- `container/heap.Fix(h, i)`. -/
def goHeapFix (st : HeapState) (i : Nat) : HeapState :=
  let d := heapDown st i st.heap.length
  if d.2 = i then heapUp d.1 i else d.1

/-- `healthChecker.unregister`: set the session's `hcIndex` to `-1` and, when
the old index was non-negative, remove that position from the queue. -/
def hcUnregister (st : HeapState) (id : Nat) : HeapState :=
  let oi := st.idx id
  let st1 := setIdx st id (-1)
  if 0 ≤ oi then goHeapRemove st1 oi.toNat else st1

/-- The heap operations claim C9 quantifies over. -/
inductive HOp where
  | push (id : Nat) (t : Int)
  | pop
  | swapAt (i j : Nat)
  | fix (i : Nat)
  | removeAt (i : Nat)
  | unreg (id : Nat)

/-- Apply one heap operation; `none` when its guard fails (`push` of a
session already in the heap never happens - `register` runs once per created
session - and the positional operations are called with in-range indices). -/
def applyHOp (st : HeapState) : HOp → Option HeapState
  | HOp.push id t => if id ∈ st.heap then none else some (goHeapPush st id t)
  | HOp.pop => if st.heap.isEmpty then none else some (goHeapPop st)
  | HOp.swapAt i j =>
    if i < st.heap.length ∧ j < st.heap.length then some (hcSwap st i j) else none
  | HOp.fix i => if i < st.heap.length then some (goHeapFix st i) else none
  | HOp.removeAt i => if i < st.heap.length then some (goHeapRemove st i) else none
  | HOp.unreg id => if id ∈ st.seen then some (hcUnregister st id) else none

/-- Run a sequence of heap operations. -/
def runHOps (st : HeapState) : List HOp → Option HeapState
  | [] => some st
  | op :: rest =>
    match applyHOp st op with
    | some st1 => runHOps st1 rest
    | none => none

/-- Position/index synchronisation: the session stored at heap position `i`
records `i` as its `hcIndex`. -/
def HSync (st : HeapState) : Prop :=
  ∀ i : Nat, i < st.heap.length → st.idx (st.heap.getD i 0) = (i : Int)

/-- Every session that has been pushed and is not currently in the heap has
`hcIndex = -1`. -/
def HOut (st : HeapState) : Prop :=
  ∀ id, id ∈ st.seen → id ∉ st.heap → st.idx id = -1

/-- The heap invariant claim C9 asserts. -/
def HInv (st : HeapState) : Prop :=
  HSync st ∧ HOut st

/-! ### Claim statements and concrete instances -/

/-- Claim C2 as stated: a popped session is pinged exactly when its deadline
is more than twice the interval in the past; any ping failure destroys the
session and restarts the acquisition; otherwise a handle is returned. -/
def C2ClaimHolds : Prop :=
  ∀ (now interval nextCheck : Int) (pingErr : Option SpanError),
    (nextCheck + 2 * interval < now ↔
      (sessionPoolIsHealthy now interval nextCheck pingErr).pinged = true) ∧
    (nextCheck + 2 * interval < now → pingErr ≠ none →
      (sessionPoolIsHealthy now interval nextCheck pingErr).destroyed = true ∧
      takeCheckSession now interval nextCheck pingErr = false) ∧
    (¬ nextCheck + 2 * interval < now ∨ pingErr = none →
      takeCheckSession now interval nextCheck pingErr = true)

/-- The inductive invariant of the counter-level transition system: the idle
lists and in-flight creations never exceed `numOpened`; the maintainer has at
most one in-flight creation; the acquisition paths respect `MaxBurst`; and
with a positive `MaxOpened` (hence `MinOpened ≤ MaxOpened`, by
`SessionPoolConfig.validate`) `numOpened` and any pending replenish target
stay within `MaxOpened`. -/
def PoolInv (c : PoolCfg) (s : CounterState) : Prop :=
  s.idleLen + s.idleWriteLen + s.createReqs ≤ s.numOpened ∧
  s.createReqsRepl ≤ 1 ∧
  (0 < c.MaxBurst → s.createReqsTake ≤ c.MaxBurst) ∧
  (0 < c.MaxOpened →
    s.numOpened ≤ c.MaxOpened ∧ ∀ t, s.replTarget = some t → t ≤ c.MaxOpened)

/-- A configuration accepted by `SessionPoolConfig.validate`:
`MinOpened = 5 ≤ MaxOpened = 10`, `MaxBurst = 1`, `MaxIdle = 0`. -/
def c1Cfg : PoolCfg :=
  { MinOpened := 5, MaxOpened := 10, MaxBurst := 1, MaxIdle := 0 }

/-- An acquisition takes the only `MaxBurst` budget slot, the maintainer
samples (target `MinOpened = 5 > 1`), and `replenishPool` takes creation
budget on top of it. -/
def c1Trace : List PoolStep :=
  [PoolStep.takeBudget, PoolStep.maintainerSample 0, PoolStep.replenishBudget]

/-- The state reached by `c1Trace`: two in-flight creation requests although
`MaxBurst = 1`. -/
def c1Bad : CounterState :=
  { numOpened := 2, idleLen := 0, idleWriteLen := 0,
    createReqsTake := 1, createReqsRepl := 1, replTarget := some 5 }

/-- A concrete context for the retry loop: deadline-type cancellation first
observed at the top-of-loop check of iteration 2. -/
def c8Ctx : CtxModel :=
  { deadline := true, doneTop := fun k => decide (2 ≤ k), doneSleep := fun _ => false }

/-- Concrete call outcomes: a retryable Unavailable error carrying a
server-supplied retry delay, then retryable unexpected-EOF errors. -/
def c8F : Nat → Option SpanError :=
  fun k =>
    if k = 0 then some ⟨Code.unavailable, "server busy", some 7⟩
    else some ⟨Code.internal, "got unexpected EOF mid-stream", none⟩

/-- The cancellation error the retry loop returns for `c8Ctx`/`c8F`. -/
def c8CancelErr : SpanError :=
  errContextCanceled c8Ctx (c8F 1)

/-- A concrete operation sequence on the healthcheck queue: register three
sessions, pop, fix, remove one positionally, and unregister an
already-popped session. -/
def c9Ops : List HOp :=
  [HOp.push 10 5, HOp.push 11 3, HOp.pop, HOp.push 12 7, HOp.fix 0,
    HOp.removeAt 0, HOp.unreg 11]

/-- The queue state reached by `c9Ops`. -/
def c9Final : HeapState :=
  (runHOps initHeapState c9Ops).getD initHeapState

/-! ## Claim C7 -/

/-- C7: `isRetryable` holds exactly for errors with code Unavailable, code
Internal carrying one of the markers "transport is closing", "stream
terminated by RST_STREAM" or "unexpected EOF", or code Unknown carrying
"unexpected EOF"; `shouldDropSession` holds exactly for code NotFound
carrying "Session not found"; neither holds for the nil error. -/
theorem C7_error_classification (err : Option SpanError) :
    (isRetryable err = true ↔ RetryableSpec err) ∧
    (shouldDropSession err = true ↔ DropSessionSpec err) ∧
    isRetryable none = false ∧ shouldDropSession none = false := by
  refine ⟨?_, ?_, rfl, rfl⟩
  · cases err with
    | none =>
      simp [isRetryable, isErrorClosing, isErrorUnexpectedEOF, isErrorRST,
        isErrorUnavailable, RetryableSpec]
    | some e =>
      obtain ⟨c, d, ri⟩ := e
      cases c <;>
        simp [isRetryable, isErrorClosing, isErrorUnexpectedEOF, isErrorRST,
          isErrorUnavailable, ErrCode, ErrDesc, RetryableSpec] <;>
        by_cases h1 : strContains d "transport is closing" = true <;>
        by_cases h2 : strContains d "stream terminated by RST_STREAM" = true <;>
        by_cases h3 : strContains d "unexpected EOF" = true <;>
        simp_all
  · cases err with
    | none => simp [shouldDropSession, DropSessionSpec]
    | some e =>
      obtain ⟨c, d, ri⟩ := e
      cases c <;>
        simp [shouldDropSession, ErrCode, ErrDesc, DropSessionSpec]

/-! ## Claim C4 -/

/-- C4: `sessionPool.recycle` rejects (returning `false` and changing
nothing) exactly when the session or the pool is invalid; otherwise it
appends the session to the back of the write-idle list when it carries a
write-transaction token and to the back of the read-idle list otherwise, and
closes and replaces the wake channel. -/
theorem C4_recycle_routing (p : SessionPool) (s : Session) :
    (s.valid = false ∨ p.valid = false → SessionPool.recycle p s = (false, p, s)) ∧
    (s.valid = true → p.valid = true → s.tx.isSome = true →
      SessionPool.recycle p s =
        (true,
          { p with idleWriteList := p.idleWriteList ++ [s.id], wakeGen := p.wakeGen + 1 },
          { s with idleLink := true })) ∧
    (s.valid = true → p.valid = true → s.tx = none →
      SessionPool.recycle p s =
        (true,
          { p with idleList := p.idleList ++ [s.id], wakeGen := p.wakeGen + 1 },
          { s with idleLink := true })) := by
  unfold SessionPool.recycle
  refine ⟨fun h => ?_, fun hs hp ht => ?_, fun hs hp ht => ?_⟩
  · rw [if_pos h]
  · rw [if_neg (by simp [hs, hp]), if_pos ht]
  · rw [if_neg (by simp [hs, hp]), if_neg (by simp [ht])]

/-- Witness for C4 at a concrete pool and session. -/
theorem C4_recycle_routing_witness :
    SessionPool.recycle
        { valid := true, idleList := ["a"], idleWriteList := [], numOpened := 2,
          createReqs := 0, MinOpened := 0, MaxOpened := 10, MaxBurst := 10,
          MaxIdle := 0, wakeGen := 3 }
        { id := "b", valid := true, tx := some 7, idleLink := false,
          nextCheck := 0, hcIndex := -1 } =
      (true,
        { valid := true, idleList := ["a"], idleWriteList := ["b"], numOpened := 2,
          createReqs := 0, MinOpened := 0, MaxOpened := 10, MaxBurst := 10,
          MaxIdle := 0, wakeGen := 4 },
        { id := "b", valid := true, tx := some 7, idleLink := true,
          nextCheck := 0, hcIndex := -1 }) :=
  (C4_recycle_routing _ _).2.1 rfl rfl rfl

/-! ## Claim C5 -/

/-- C5: an expiry-driven `sessionPool.remove` rejects, changing nothing,
whenever `numOpened ≤ MinOpened` or the session is not linked into an idle
list; consequently `numOpened` never drops below `min MinOpened numOpened`
under expiry-driven removal. -/
theorem C5_remove_expiry_guard (p : SessionPool) (s : Session) :
    (p.numOpened ≤ p.MinOpened ∨ s.idleLink = false →
      SessionPool.remove p s true = (false, p, s)) ∧
    min p.MinOpened p.numOpened ≤ (SessionPool.remove p s true).2.1.numOpened := by
  constructor
  · intro h
    unfold SessionPool.remove
    rw [if_pos ⟨rfl, h⟩]
  · obtain ⟨pv, pil, piw, pno, pcr, pmin, pmax, pburst, pidle, pwg⟩ := p
    obtain ⟨sid, sv, stx, sil, snc, shi⟩ := s
    cases sil <;> cases sv <;>
      simp only [SessionPool.remove] <;> split_ifs <;> simp_all <;> omega

/-- Witness for C5 at a concrete pool and session: `numOpened = MinOpened`,
so the expiry-driven removal rejects. -/
theorem C5_remove_expiry_guard_witness :
    SessionPool.remove
        { valid := true, idleList := ["a"], idleWriteList := [], numOpened := 2,
          createReqs := 0, MinOpened := 2, MaxOpened := 10, MaxBurst := 10,
          MaxIdle := 0, wakeGen := 0 }
        { id := "a", valid := true, tx := none, idleLink := true,
          nextCheck := 0, hcIndex := 0 } true =
      (false,
        { valid := true, idleList := ["a"], idleWriteList := [], numOpened := 2,
          createReqs := 0, MinOpened := 2, MaxOpened := 10, MaxBurst := 10,
          MaxIdle := 0, wakeGen := 0 },
        { id := "a", valid := true, tx := none, idleLink := true,
          nextCheck := 0, hcIndex := 0 }) :=
  (C5_remove_expiry_guard _ _).1 (Or.inl (by decide))

/-! ## Claim C10 -/

/-- C10: `sessionPool.remove` reports success only for a session that was
still valid, and leaves it invalid and unlinked, so for a session that is
already invalid and unlinked every later `remove` - with or without the
expiry flag - returns `false` and leaves the pool (counters, idle lists and
wake channel) and the session unchanged. -/
theorem C10_remove_single_shot (p : SessionPool) (s : Session) (isExpire : Bool) :
    ((SessionPool.remove p s isExpire).1 = true →
      s.valid = true ∧
      (SessionPool.remove p s isExpire).2.2.valid = false ∧
      (SessionPool.remove p s isExpire).2.2.idleLink = false) ∧
    (s.valid = false → s.idleLink = false →
      SessionPool.remove p s isExpire = (false, p, s)) := by
  obtain ⟨pv, pil, piw, pno, pcr, pmin, pmax, pburst, pidle, pwg⟩ := p
  obtain ⟨sid, sv, stx, sil, snc, shi⟩ := s
  constructor
  · intro h
    cases sil <;> cases sv <;>
      simp only [SessionPool.remove] at h ⊢ <;> split_ifs at h ⊢ <;> simp_all
  · intro hv hl
    simp only at hv hl
    subst hv hl
    simp [SessionPool.remove]

/-- Witness for C10 at a concrete pool and session. -/
theorem C10_remove_single_shot_witness :
    ({ id := "a", valid := true, tx := none, idleLink := true, nextCheck := 0,
        hcIndex := 0 } : Session).valid = true ∧
    (SessionPool.remove
        { valid := true, idleList := ["a"], idleWriteList := [], numOpened := 3,
          createReqs := 0, MinOpened := 0, MaxOpened := 10, MaxBurst := 10,
          MaxIdle := 0, wakeGen := 0 }
        { id := "a", valid := true, tx := none, idleLink := true, nextCheck := 0,
          hcIndex := 0 } false).2.2.valid = false ∧
    (SessionPool.remove
        { valid := true, idleList := ["a"], idleWriteList := [], numOpened := 3,
          createReqs := 0, MinOpened := 0, MaxOpened := 10, MaxBurst := 10,
          MaxIdle := 0, wakeGen := 0 }
        { id := "a", valid := true, tx := none, idleLink := true, nextCheck := 0,
          hcIndex := 0 } false).2.2.idleLink = false :=
  (C10_remove_single_shot _ _ false).1 (by decide)

/-! ## Claim C6 -/

/-- C6: session-handle operations are idempotent after the first completing
call: a second `recycle` (release) is a no-op, the first of
`recycle`/`destroy` consumes the session pointer so any later call of either
changes nothing, and `getID` returns the empty string once the handle has
been released or destroyed. -/
theorem C6_handle_idempotent (hw : Option Session × HandleWorld) :
    sessionHandleRecycle (sessionHandleRecycle hw) = sessionHandleRecycle hw ∧
    sessionHandleDestroy (sessionHandleDestroy hw) = sessionHandleDestroy hw ∧
    sessionHandleDestroy (sessionHandleRecycle hw) = sessionHandleRecycle hw ∧
    sessionHandleRecycle (sessionHandleDestroy hw) = sessionHandleDestroy hw ∧
    sessionHandleGetID (sessionHandleRecycle hw) = "" ∧
    sessionHandleGetID (sessionHandleDestroy hw) = "" := by
  obtain ⟨os, w⟩ := hw
  cases os with
  | none => exact ⟨rfl, rfl, rfl, rfl, rfl, rfl⟩
  | some s =>
    have hr : ∀ w1, (sessionHandleRecycle (some s, w1)).1 = none := by
      intro w1
      show (let s0 := { s with tx := none };
        let r := SessionPool.recycle w1.pool s0;
        if r.1 then ((none : Option Session), { w1 with pool := r.2.1 })
        else (none, sessionDestroyWorld r.2.2 w1)).1 = none
      simp only []
      split_ifs <;> rfl
    have hre : sessionHandleRecycle (some s, w) =
        (none, (sessionHandleRecycle (some s, w)).2) := by
      exact Prod.ext (hr w) rfl
    have hde : sessionHandleDestroy (some s, w) =
        (none, (sessionHandleDestroy (some s, w)).2) := rfl
    rw [hre, hde]
    exact ⟨rfl, rfl, rfl, rfl, rfl, rfl⟩

/-! ## Claim C2 -/

/-- C2 as stated is false on the code: a session whose deadline is stale is
pinged, but a ping failure that `shouldDropSession` does not recognise (here
code Unavailable) neither destroys the session nor restarts the acquisition -
the handle is returned. -/
theorem C2_counterexample : ¬ C2ClaimHolds := by
  intro h
  have h2 :=
    (h 100 10 0 (some ⟨Code.unavailable, "connection reset", none⟩)).2.1
      (by decide) (by simp)
  exact absurd h2.1 (by decide)

/-- C2 amended: a popped session is pinged exactly when its next-check
deadline is more than twice the health-check interval in the past; it is
destroyed, restarting the acquisition, exactly when that synchronous ping
fails with an error `shouldDropSession` recognises (NotFound with "Session
not found"); in every other case - deadline recent enough, ping success, or
ping failure of any other kind - a handle for it is returned. -/
theorem C2_take_health_check (now interval nextCheck : Int) (pingErr : Option SpanError) :
    (sessionPoolIsHealthy now interval nextCheck pingErr).pinged =
      decide (nextCheck + 2 * interval < now) ∧
    (sessionPoolIsHealthy now interval nextCheck pingErr).destroyed =
      (decide (nextCheck + 2 * interval < now) && shouldDropSession pingErr) ∧
    takeCheckSession now interval nextCheck pingErr =
      !(decide (nextCheck + 2 * interval < now) && shouldDropSession pingErr) := by
  unfold takeCheckSession sessionPoolIsHealthy
  split_ifs with h1 h2 <;> simp_all

/-! ## Claim C3 -/

/-- C3 names a code bug: because `maxSessionsInUse` is declared inside the
maintainer's loop body, it always equals the current sample - the 10-sample
sliding-window maximum described by the code's own comments (and the spec) is
dead.  At iteration 1 with in-use history `[5, 0]` (most recent first `[0,
5]`) and `numOpened = 5`, the code's target is `0` while the windowed target
is `5`. -/
theorem C3_maintainer_window_dead (iteration curr : Nat) :
    maintainerMaxInUse iteration curr = curr ∧
    maintainerSessionsToKeep ⟨0, 0, 0, 0⟩ 1 5 0 = 0 ∧
    specSessionsToKeep ⟨0, 0, 0, 0⟩ 5 [0, 5] = 5 := by
  refine ⟨?_, by decide, by decide⟩
  show (if iteration % 10 = 0 ∨ 0 < curr then curr else 0) = curr
  split_ifs <;> omega

/-! ## Claim C1 -/

/-- Every step of the counter-level transition system preserves `PoolInv`. -/
theorem applyPoolStep_inv (c : PoolCfg) (hc : 0 < c.MaxOpened → c.MinOpened ≤ c.MaxOpened)
    (s st : CounterState) (step : PoolStep) (hinv : PoolInv c s)
    (h : applyPoolStep c s step = some st) : PoolInv c st := by
  obtain ⟨no, il, iw, ct, cr, rt⟩ := s
  have hbal : il + iw + (ct + cr) ≤ no := hinv.1
  have hrepl : cr ≤ 1 := hinv.2.1
  have htake : 0 < c.MaxBurst → ct ≤ c.MaxBurst := hinv.2.2.1
  have hmaxn : 0 < c.MaxOpened → no ≤ c.MaxOpened := fun hmo => (hinv.2.2.2 hmo).1
  have hmaxt : 0 < c.MaxOpened → ∀ t, rt = some t → t ≤ c.MaxOpened :=
    fun hmo => (hinv.2.2.2 hmo).2
  cases step with
  | takeBudget =>
    simp only [applyPoolStep] at h
    split_ifs at h with hg
    obtain ⟨hg1, hg2, hg3, hg4⟩ := hg
    rw [Option.some_inj] at h
    subst h
    have h3 : 0 < c.MaxOpened → no < c.MaxOpened := by
      intro hmo
      by_contra hcon
      exact hg3 ⟨hmo, by omega⟩
    have h4 : 0 < c.MaxBurst → ct + cr < c.MaxBurst := by
      intro hmb
      by_contra hcon
      exact hg4 ⟨hmb, show c.MaxBurst ≤ ct + cr by omega⟩
    refine ⟨show il + iw + (ct + 1 + cr) ≤ no + 1 by omega, hrepl, fun hmb => ?_,
      fun hmo => ⟨?_, fun t ht => hmaxt hmo t ht⟩⟩
    · show ct + 1 ≤ c.MaxBurst
      have := h4 hmb
      omega
    · show no + 1 ≤ c.MaxOpened
      have := h3 hmo
      omega
  | createDoneTake ok =>
    simp only [applyPoolStep] at h
    split_ifs at h with hg hok
    · rw [Option.some_inj] at h
      subst h
      exact ⟨show il + iw + (ct - 1 + cr) ≤ no by omega, hrepl,
        fun hmb => show ct - 1 ≤ c.MaxBurst by have := htake hmb; omega,
        fun hmo => ⟨hmaxn hmo, fun t ht => hmaxt hmo t ht⟩⟩
    · rw [Option.some_inj] at h
      subst h
      exact ⟨show il + iw + (ct - 1 + cr) ≤ no - 1 by omega, hrepl,
        fun hmb => show ct - 1 ≤ c.MaxBurst by have := htake hmb; omega,
        fun hmo => ⟨show no - 1 ≤ c.MaxOpened by have := hmaxn hmo; omega,
          fun t ht => hmaxt hmo t ht⟩⟩
  | popIdle write =>
    simp only [applyPoolStep] at h
    split_ifs at h with hw hiw hil
    · rw [Option.some_inj] at h
      subst h
      exact ⟨show il + (iw - 1) + (ct + cr) ≤ no by omega, hrepl, htake,
        fun hmo => ⟨hmaxn hmo, fun t ht => hmaxt hmo t ht⟩⟩
    · rw [Option.some_inj] at h
      subst h
      exact ⟨show il - 1 + iw + (ct + cr) ≤ no by omega, hrepl, htake,
        fun hmo => ⟨hmaxn hmo, fun t ht => hmaxt hmo t ht⟩⟩
  | recycleStep write =>
    simp only [applyPoolStep, CounterState.createReqs] at h
    split_ifs at h with hg hw
    · rw [Option.some_inj] at h
      subst h
      exact ⟨show il + (iw + 1) + (ct + cr) ≤ no by omega, hrepl, htake,
        fun hmo => ⟨hmaxn hmo, fun t ht => hmaxt hmo t ht⟩⟩
    · rw [Option.some_inj] at h
      subst h
      exact ⟨show il + 1 + iw + (ct + cr) ≤ no by omega, hrepl, htake,
        fun hmo => ⟨hmaxn hmo, fun t ht => hmaxt hmo t ht⟩⟩
  | removeStep fromIdle =>
    match fromIdle with
    | some true =>
      replace h : (if 0 < iw then
          some (⟨no - 1, il, iw - 1, ct, cr, rt⟩ : CounterState) else none) = some st := h
      split_ifs at h with hg
      rw [Option.some_inj] at h
      subst h
      exact ⟨show il + (iw - 1) + (ct + cr) ≤ no - 1 by omega, hrepl, htake,
        fun hmo => ⟨show no - 1 ≤ c.MaxOpened by have := hmaxn hmo; omega,
          fun t ht => hmaxt hmo t ht⟩⟩
    | some false =>
      replace h : (if 0 < il then
          some (⟨no - 1, il - 1, iw, ct, cr, rt⟩ : CounterState) else none) = some st := h
      split_ifs at h with hg
      rw [Option.some_inj] at h
      subst h
      exact ⟨show il - 1 + iw + (ct + cr) ≤ no - 1 by omega, hrepl, htake,
        fun hmo => ⟨show no - 1 ≤ c.MaxOpened by have := hmaxn hmo; omega,
          fun t ht => hmaxt hmo t ht⟩⟩
    | none =>
      replace h : (if il + iw + (ct + cr) < no then
          some (⟨no - 1, il, iw, ct, cr, rt⟩ : CounterState) else none) = some st := h
      split_ifs at h with hg
      rw [Option.some_inj] at h
      subst h
      exact ⟨show il + iw + (ct + cr) ≤ no - 1 by omega, hrepl, htake,
        fun hmo => ⟨show no - 1 ≤ c.MaxOpened by have := hmaxn hmo; omega,
          fun t ht => hmaxt hmo t ht⟩⟩
  | maintainerSample iteration =>
    simp only [applyPoolStep] at h
    split_ifs at h with hg hlt
    · rw [Option.some_inj] at h
      subst h
      refine ⟨show il + iw + (ct + cr) ≤ no from hbal, hrepl, htake,
        fun hmo => ⟨hmaxn hmo, fun t ht => ?_⟩⟩
      have ht2 : some (maintainerSessionsToKeep c iteration no (no - il - iw)) = some t := ht
      rw [Option.some_inj] at ht2
      subst ht2
      have h1 := hc hmo
      have h2 := hmaxn hmo
      unfold maintainerSessionsToKeep maxUint64 minUint64 maintainerMaxInUse
      split_ifs <;> omega
    · rw [Option.some_inj] at h
      subst h
      exact ⟨show il + iw + (ct + cr) ≤ no from hbal, hrepl, htake,
        fun hmo => ⟨hmaxn hmo, fun t ht =>
          absurd (show (none : Option Nat) = some t from ht) (by simp)⟩⟩
  | replenishBudget =>
    match fromRt : rt with
    | none =>
      replace h : (none : Option CounterState) = some st := h
      exact absurd h (by simp)
    | some t0 =>
      subst fromRt
      replace h : (if cr = 0 ∧ no < t0 then
          some (⟨no + 1, il, iw, ct, 1, some t0⟩ : CounterState) else none) = some st := h
      split_ifs at h with hg
      rw [Option.some_inj] at h
      subst h
      refine ⟨show il + iw + (ct + 1) ≤ no + 1 by omega, show (1 : Nat) ≤ 1 by omega, htake,
        fun hmo => ⟨?_, fun t ht => hmaxt hmo t ht⟩⟩
      show no + 1 ≤ c.MaxOpened
      have h1 := hmaxt hmo t0 rfl
      omega
  | createDoneRepl ok =>
    simp only [applyPoolStep] at h
    split_ifs at h with hg hok
    · rw [Option.some_inj] at h
      subst h
      exact ⟨show il + iw + (ct + 0) ≤ no by omega, show (0 : Nat) ≤ 1 by omega, htake,
        fun hmo => ⟨hmaxn hmo, fun t ht => hmaxt hmo t ht⟩⟩
    · rw [Option.some_inj] at h
      subst h
      exact ⟨show il + iw + (ct + 0) ≤ no - 1 by omega, show (0 : Nat) ≤ 1 by omega, htake,
        fun hmo => ⟨show no - 1 ≤ c.MaxOpened by have := hmaxn hmo; omega,
          fun t ht => hmaxt hmo t ht⟩⟩
  | replenishFinish =>
    simp only [applyPoolStep] at h
    split_ifs at h with hg
    rw [Option.some_inj] at h
    subst h
    exact ⟨show il + iw + (ct + cr) ≤ no from hbal, hrepl, htake,
      fun hmo => ⟨hmaxn hmo, fun t ht => by exact absurd ht (by simp)⟩⟩

/-- `PoolInv` holds along every run of the counter system. -/
theorem runPoolSteps_inv (c : PoolCfg) (hc : 0 < c.MaxOpened → c.MinOpened ≤ c.MaxOpened) :
    ∀ (steps : List PoolStep) (s st : CounterState),
      PoolInv c s → runPoolSteps c s steps = some st → PoolInv c st := by
  intro steps
  induction steps with
  | nil =>
    intro s st hinv h
    rw [runPoolSteps, Option.some_inj] at h
    subst h
    exact hinv
  | cons step rest ih =>
    intro s st hinv h
    rw [runPoolSteps] at h
    match hstep : applyPoolStep c s step with
    | some s1 =>
      rw [hstep] at h
      exact ih s1 st (applyPoolStep_inv c hc s s1 step hinv hstep) h
    | none => rw [hstep] at h; exact absurd h (by simp)

/-- C1 corrected: over every execution of the counter-level system - covering
`take`, `takeWriteSession`, `createSession`'s `doneCreate`, recycling,
removal and the maintainer's `replenishPool` - a validated configuration
keeps `numOpened ≤ MaxOpened` whenever `MaxOpened > 0`; the acquisition
paths' share of `createReqs` respects `MaxBurst`, but since `replenishPool`
takes creation budget without consulting `MaxBurst`, the total only satisfies
`createReqs ≤ MaxBurst + 1` (the singleton maintainer keeps at most one
creation in flight). -/
theorem C1_pool_caps (c : PoolCfg) (hc : 0 < c.MaxOpened → c.MinOpened ≤ c.MaxOpened)
    (steps : List PoolStep) (s : CounterState)
    (h : runPoolSteps c initCounterState steps = some s) :
    (0 < c.MaxOpened → s.numOpened ≤ c.MaxOpened) ∧
    (0 < c.MaxBurst → s.createReqsTake ≤ c.MaxBurst ∧ s.createReqs ≤ c.MaxBurst + 1) := by
  have hinit : PoolInv c initCounterState :=
    ⟨by decide, by decide, fun _ => Nat.zero_le _,
      fun _ => ⟨Nat.zero_le _, fun t ht => by simp [initCounterState] at ht⟩⟩
  have hinv := runPoolSteps_inv c hc steps initCounterState s hinit h
  obtain ⟨hbal, hrepl, htake, hmax⟩ := hinv
  exact ⟨fun hmo => (hmax hmo).1,
    fun hmb => ⟨htake hmb, by simp only [CounterState.createReqs]; omega⟩⟩

/-- Witness for C1's corrected caps along the concrete trace `c1Trace`. -/
theorem C1_pool_caps_witness :
    (0 < c1Cfg.MaxOpened → c1Bad.numOpened ≤ c1Cfg.MaxOpened) ∧
    (0 < c1Cfg.MaxBurst →
      c1Bad.createReqsTake ≤ c1Cfg.MaxBurst ∧ c1Bad.createReqs ≤ c1Cfg.MaxBurst + 1) :=
  C1_pool_caps c1Cfg (by decide) c1Trace c1Bad (by decide)

/-- C1 as stated is false: after `c1Trace` (an acquisition holding the only
`MaxBurst` budget slot while the maintainer's `replenishPool` - which never
checks `MaxBurst` - takes another), `createReqs = 2 > MaxBurst = 1` under the
validated configuration `c1Cfg`. -/
theorem C1_counterexample : ¬ C1ClaimHolds := by
  intro h
  exact absurd ((h c1Cfg c1Trace c1Bad (by decide)).2 (by decide)) (by decide)

/-! ## Claim C8 -/

/-- The error built for a cancelled context carries code DeadlineExceeded
when the deadline fired and Canceled otherwise. -/
theorem errContextCanceled_code (ctx : CtxModel) (l : Option SpanError) :
    (errContextCanceled ctx l).code =
      if ctx.deadline then Code.deadlineExceeded else Code.canceled := by
  unfold errContextCanceled
  split_ifs <;> rfl

/-- The error built for a cancelled context embeds the rendering of the last
inner error in its message. -/
theorem errContextCanceled_desc (ctx : CtxModel) (l : Option SpanError) :
    ContainsStr (errContextCanceled ctx l).desc (errorString l) := by
  unfold errContextCanceled
  split_ifs with hd
  · exact ⟨ctxErrString true ++ ", lastErr is <", ">", rfl⟩
  · exact ⟨ctxErrString false ++ ", lastErr is <", ">", rfl⟩

/-- Behaviour of the retry loop from iteration `k`: the result is `ok` iff
one of the performed invocations returned nil; a `failed` result is the last
invocation's non-retryable error; a `cancelled` result is
`errContextCanceled` of the last inner error; and the `i`-th completed sleep
is the server-supplied delay of the `i`-th (retryable) error when present,
the default backoff for attempt count `k + i` otherwise. -/
theorem runAux_spec (ctx : CtxModel) (f : Nat → Option SpanError) :
    ∀ (fuel k : Nat) (lastErr : Option SpanError),
      ((runAux ctx f fuel k lastErr).1 = RunResult.ok ↔
        ∃ j, j < (runAux ctx f fuel k lastErr).2.2 ∧ f (k + j) = none) ∧
      (∀ e, (runAux ctx f fuel k lastErr).1 = RunResult.failed e →
        0 < (runAux ctx f fuel k lastErr).2.2 ∧
        f (k + (runAux ctx f fuel k lastErr).2.2 - 1) = some e ∧
        isRetryable (some e) = false) ∧
      (∀ e, (runAux ctx f fuel k lastErr).1 = RunResult.cancelled e →
        e = errContextCanceled ctx
          (if (runAux ctx f fuel k lastErr).2.2 = 0 then lastErr
            else f (k + (runAux ctx f fuel k lastErr).2.2 - 1))) ∧
      (∀ i, i < (runAux ctx f fuel k lastErr).2.1.length →
        ∃ e, f (k + i) = some e ∧ isRetryable (some e) = true ∧
          (runAux ctx f fuel k lastErr).2.1.getD i 0 = backoffFor e (k + i)) := by
  intro fuel
  induction fuel with
  | zero =>
    intro k lastErr
    refine ⟨by simp [runAux], fun e he => ?_, fun e he => ?_, fun i hi => ?_⟩
    · exact absurd he (by simp [runAux])
    · exact absurd he (by simp [runAux])
    · exact absurd hi (by simp [runAux])
  | succ fuel ih =>
    intro k lastErr
    by_cases htop : ctx.doneTop k = true
    · have hre : runAux ctx f (fuel + 1) k lastErr =
          (RunResult.cancelled (errContextCanceled ctx lastErr), [], 0) := by
        rw [runAux]
        simp [htop]
      rw [hre]
      refine ⟨by simp, fun e he => ?_, fun e he => ?_, fun i hi => ?_⟩
      · exact absurd he (by simp)
      · have h1 : errContextCanceled ctx lastErr = e := RunResult.cancelled.inj he
        show e = errContextCanceled ctx (if (0 : Nat) = 0 then lastErr else f (k + 0 - 1))
        rw [if_pos rfl]
        exact h1.symm
      · exact absurd (show i < ([] : List Nat).length from hi) (by simp)
    · rcases hfk : f k with _ | e
      · have hre : runAux ctx f (fuel + 1) k lastErr = (RunResult.ok, [], 1) := by
          rw [runAux]
          simp [htop, hfk]
        rw [hre]
        refine ⟨?_, fun e he => ?_, fun e he => ?_, fun i hi => ?_⟩
        · constructor
          · intro _
            exact ⟨0, show (0 : Nat) < 1 by omega, by simpa using hfk⟩
          · intro _
            rfl
        · exact absurd he (by simp)
        · exact absurd he (by simp)
        · exact absurd (show i < ([] : List Nat).length from hi) (by simp)
      · by_cases hr : isRetryable (some e) = true
        · by_cases hsl : ctx.doneSleep k = true
          · have hre : runAux ctx f (fuel + 1) k lastErr =
                (RunResult.cancelled (errContextCanceled ctx (some e)), [], 1) := by
              rw [runAux]
              simp [htop, hfk, hr, hsl]
            rw [hre]
            refine ⟨?_, fun e1 he => ?_, fun e1 he => ?_, fun i hi => ?_⟩
            · constructor
              · intro hcon
                exact absurd hcon (by simp)
              · rintro ⟨j, hj, hfj⟩
                have hj1 : j < 1 := hj
                have hj0 : j = 0 := by omega
                subst hj0
                rw [Nat.add_zero] at hfj
                rw [hfj] at hfk
                exact absurd hfk (by simp)
            · exact absurd he (by simp)
            · have h1 : errContextCanceled ctx (some e) = e1 := RunResult.cancelled.inj he
              show e1 = errContextCanceled ctx (if (1 : Nat) = 0 then lastErr else f (k + 1 - 1))
              rw [if_neg (by omega), show k + 1 - 1 = k by omega, hfk]
              exact h1.symm
            · exact absurd (show i < ([] : List Nat).length from hi) (by simp)
          · have hre : runAux ctx f (fuel + 1) k lastErr =
                ((runAux ctx f fuel (k + 1) (some e)).1,
                  backoffFor e k :: (runAux ctx f fuel (k + 1) (some e)).2.1,
                  (runAux ctx f fuel (k + 1) (some e)).2.2 + 1) := by
              rw [runAux]
              simp [htop, hfk, hr, hsl]
            obtain ⟨iha, ihb, ihc, ihd⟩ := ih (k + 1) (some e)
            rw [hre]
            refine ⟨?_, fun e1 he => ?_, fun e1 he => ?_, fun i hi => ?_⟩
            · show (runAux ctx f fuel (k + 1) (some e)).1 = RunResult.ok ↔
                ∃ j, j < (runAux ctx f fuel (k + 1) (some e)).2.2 + 1 ∧ f (k + j) = none
              rw [iha]
              constructor
              · rintro ⟨j, hj, hfj⟩
                refine ⟨j + 1, by omega, ?_⟩
                rw [show k + (j + 1) = k + 1 + j by omega]
                exact hfj
              · rintro ⟨j, hj, hfj⟩
                match j with
                | 0 =>
                  rw [Nat.add_zero] at hfj
                  rw [hfj] at hfk
                  exact absurd hfk (by simp)
                | j1 + 1 =>
                  refine ⟨j1, by omega, ?_⟩
                  rw [show k + 1 + j1 = k + (j1 + 1) by omega]
                  exact hfj
            · have he1 : (runAux ctx f fuel (k + 1) (some e)).1 = RunResult.failed e1 := he
              obtain ⟨hb1, hb2, hb3⟩ := ihb e1 he1
              refine ⟨show 0 < (runAux ctx f fuel (k + 1) (some e)).2.2 + 1 by omega, ?_, hb3⟩
              show f (k + ((runAux ctx f fuel (k + 1) (some e)).2.2 + 1) - 1) = some e1
              rw [show k + ((runAux ctx f fuel (k + 1) (some e)).2.2 + 1) - 1 =
                k + 1 + (runAux ctx f fuel (k + 1) (some e)).2.2 - 1 by omega]
              exact hb2
            · have he1 : (runAux ctx f fuel (k + 1) (some e)).1 = RunResult.cancelled e1 := he
              have h1 := ihc e1 he1
              show e1 = errContextCanceled ctx
                (if (runAux ctx f fuel (k + 1) (some e)).2.2 + 1 = 0 then lastErr
                  else f (k + ((runAux ctx f fuel (k + 1) (some e)).2.2 + 1) - 1))
              rw [if_neg (by omega)]
              by_cases hz : (runAux ctx f fuel (k + 1) (some e)).2.2 = 0
              · rw [hz] at h1
                rw [if_pos rfl] at h1
                rw [show k + ((runAux ctx f fuel (k + 1) (some e)).2.2 + 1) - 1 = k from by omega,
                  hfk]
                exact h1
              · rw [if_neg hz] at h1
                rw [show k + ((runAux ctx f fuel (k + 1) (some e)).2.2 + 1) - 1 =
                  k + 1 + (runAux ctx f fuel (k + 1) (some e)).2.2 - 1 from by omega]
                exact h1
            · have hi1 : i < (backoffFor e k :: (runAux ctx f fuel (k + 1) (some e)).2.1).length :=
                hi
              match i with
              | 0 =>
                refine ⟨e, by rw [Nat.add_zero]; exact hfk, hr, ?_⟩
                rfl
              | i1 + 1 =>
                have hi2 : i1 < (runAux ctx f fuel (k + 1) (some e)).2.1.length := by
                  rw [List.length_cons] at hi1
                  omega
                obtain ⟨e1, hd1, hd2, hd3⟩ := ihd i1 hi2
                refine ⟨e1, ?_, hd2, ?_⟩
                · rw [show k + (i1 + 1) = k + 1 + i1 by omega]
                  exact hd1
                · show (backoffFor e k :: (runAux ctx f fuel (k + 1) (some e)).2.1).getD
                    (i1 + 1) 0 = backoffFor e1 (k + (i1 + 1))
                  rw [show k + (i1 + 1) = k + 1 + i1 by omega]
                  simpa using hd3
        · have hre : runAux ctx f (fuel + 1) k lastErr = (RunResult.failed e, [], 1) := by
            rw [runAux]
            simp [htop, hfk, hr]
          rw [hre]
          refine ⟨?_, fun e1 he => ?_, fun e1 he => ?_, fun i hi => ?_⟩
          · constructor
            · intro hcon
              exact absurd hcon (by simp)
            · rintro ⟨j, hj, hfj⟩
              have hj1 : j < 1 := hj
              have hj0 : j = 0 := by omega
              subst hj0
              rw [Nat.add_zero] at hfj
              rw [hfj] at hfk
              exact absurd hfk (by simp)
          · have h1 : e = e1 := RunResult.failed.inj he
            subst h1
            refine ⟨show (0 : Nat) < 1 by omega, ?_, by simpa using hr⟩
            show f (k + 1 - 1) = some e
            rw [show k + 1 - 1 = k by omega]
            exact hfk
          · exact absurd he (by simp)
          · exact absurd (show i < ([] : List Nat).length from hi) (by simp)

/-- C8: `runRetryableNoWrap` returns success exactly when one of the
performed invocations of `f` returned nil; a non-retryable error is returned
as-is with no further attempts; on context cancellation the returned error is
`errContextCanceled` of the last inner error, carrying code DeadlineExceeded
or Canceled and a message embedding that last inner error; and every
completed backoff sleep uses the server-supplied retry delay extracted from
the RPC trailer when present, the default exponential-backoff delay for the
current attempt count otherwise. -/
theorem C8_run_retryable (ctx : CtxModel) (f : Nat → Option SpanError) (fuel : Nat) :
    ((runRetryableNoWrap ctx f fuel).1 = RunResult.ok ↔
      ∃ j, j < (runRetryableNoWrap ctx f fuel).2.2 ∧ f j = none) ∧
    (∀ e, (runRetryableNoWrap ctx f fuel).1 = RunResult.failed e →
      0 < (runRetryableNoWrap ctx f fuel).2.2 ∧
      f ((runRetryableNoWrap ctx f fuel).2.2 - 1) = some e ∧
      isRetryable (some e) = false) ∧
    (∀ e, (runRetryableNoWrap ctx f fuel).1 = RunResult.cancelled e →
      e = errContextCanceled ctx
          (if (runRetryableNoWrap ctx f fuel).2.2 = 0 then none
            else f ((runRetryableNoWrap ctx f fuel).2.2 - 1)) ∧
      e.code = (if ctx.deadline then Code.deadlineExceeded else Code.canceled) ∧
      ContainsStr e.desc (errorString
        (if (runRetryableNoWrap ctx f fuel).2.2 = 0 then none
          else f ((runRetryableNoWrap ctx f fuel).2.2 - 1)))) ∧
    (∀ i, i < (runRetryableNoWrap ctx f fuel).2.1.length →
      ∃ e, f i = some e ∧ isRetryable (some e) = true ∧
        (runRetryableNoWrap ctx f fuel).2.1.getD i 0 = backoffFor e i) := by
  obtain ⟨ha, hb, hc, hd⟩ := runAux_spec ctx f fuel 0 none
  refine ⟨?_, fun e he => ?_, fun e he => ?_, fun i hi => ?_⟩
  · simpa [runRetryableNoWrap] using ha
  · simpa [runRetryableNoWrap] using hb e he
  · have h2 : e = errContextCanceled ctx
        (if (runRetryableNoWrap ctx f fuel).2.2 = 0 then none
          else f ((runRetryableNoWrap ctx f fuel).2.2 - 1)) := by
      simpa [runRetryableNoWrap] using hc e he
    refine ⟨h2, ?_, ?_⟩
    · rw [h2]
      exact errContextCanceled_code ctx _
    · rw [h2]
      exact errContextCanceled_desc ctx _
  · simpa [runRetryableNoWrap] using hd i hi

/-- Witness for C8: for `c8Ctx`/`c8F` with fuel 5, the loop is cancelled and
returns the DeadlineExceeded error embedding the last inner error. -/
theorem C8_run_retryable_witness :
    c8CancelErr = errContextCanceled c8Ctx
        (if (runRetryableNoWrap c8Ctx c8F 5).2.2 = 0 then none
          else c8F ((runRetryableNoWrap c8Ctx c8F 5).2.2 - 1)) ∧
    c8CancelErr.code = (if c8Ctx.deadline then Code.deadlineExceeded else Code.canceled) ∧
    ContainsStr c8CancelErr.desc (errorString
      (if (runRetryableNoWrap c8Ctx c8F 5).2.2 = 0 then none
        else c8F ((runRetryableNoWrap c8Ctx c8F 5).2.2 - 1))) :=
  (C8_run_retryable c8Ctx c8F 5).2.2.1 c8CancelErr (by decide)

/-! ## Claim C9 -/

/-- Membership in a list of ids through positional `getD` access. -/
theorem mem_iff_getD (l : List Nat) (x : Nat) :
    x ∈ l ↔ ∃ q, ∃ _ : q < l.length, l.getD q 0 = x := by
  rw [List.mem_iff_getElem]
  constructor
  · rintro ⟨q, hq, he⟩
    exact ⟨q, hq, by rw [List.getD_eq_getElem _ _ hq]; exact he⟩
  · rintro ⟨q, hq, he⟩
    exact ⟨q, hq, by rw [← List.getD_eq_getElem _ _ hq]; exact he⟩

/-- Positional characterisation of the list produced by `hcHeap.Swap`. -/
theorem swapList_getD (l : List Nat) (i j p : Nat) (hi : i < l.length)
    (hj : j < l.length) (hp : p < l.length) :
    ((l.set i (l.getD j 0)).set j (l.getD i 0)).getD p 0 =
      if p = j then l.getD i 0 else if p = i then l.getD j 0 else l.getD p 0 := by
  have hp2 : p < ((l.set i (l.getD j 0)).set j (l.getD i 0)).length := by simpa using hp
  rw [List.getD_eq_getElem _ 0 hp2]
  by_cases hpj : p = j
  · subst hpj
    rw [if_pos rfl, List.getElem_set_self]
  · rw [if_neg hpj, List.getElem_set_ne (fun h => hpj h.symm)]
    by_cases hpi : p = i
    · subst hpi
      rw [if_pos rfl, List.getElem_set_self]
    · rw [if_neg hpi, List.getElem_set_ne (fun h => hpi h.symm),
        ← List.getD_eq_getElem l 0 hp]

/-- Swapping two in-range positions does not change the members of the
list. -/
theorem mem_swapList (l : List Nat) (i j x : Nat) (hi : i < l.length) (hj : j < l.length) :
    x ∈ (l.set i (l.getD j 0)).set j (l.getD i 0) ↔ x ∈ l := by
  constructor
  · intro hx
    obtain ⟨q, hq, he⟩ := (mem_iff_getD _ x).1 hx
    have hq2 : q < l.length := by simpa using hq
    rw [swapList_getD l i j q hi hj hq2] at he
    by_cases hqj : q = j
    · rw [if_pos hqj] at he
      exact (mem_iff_getD l x).2 ⟨i, hi, he⟩
    · rw [if_neg hqj] at he
      by_cases hqi : q = i
      · rw [if_pos hqi] at he
        exact (mem_iff_getD l x).2 ⟨j, hj, he⟩
      · rw [if_neg hqi] at he
        exact (mem_iff_getD l x).2 ⟨q, hq2, he⟩
  · intro hx
    obtain ⟨q, hq, he⟩ := (mem_iff_getD _ x).1 hx
    have hq2 : q < ((l.set i (l.getD j 0)).set j (l.getD i 0)).length := by simpa using hq
    by_cases hqi : q = i
    · refine (mem_iff_getD _ x).2 ⟨j, by simpa using hj, ?_⟩
      rw [swapList_getD l i j j hi hj hj, if_pos rfl, ← hqi]
      exact he
    · by_cases hqj : q = j
      · refine (mem_iff_getD _ x).2 ⟨i, by simpa using hi, ?_⟩
        rw [swapList_getD l i j i hi hj hi]
        by_cases hij : i = j
        · rw [if_pos hij, hij, ← hqj]
          exact he
        · rw [if_neg hij, if_pos rfl, ← hqj]
          exact he
      · refine (mem_iff_getD _ x).2 ⟨q, hq2, ?_⟩
        rw [swapList_getD l i j q hi hj hq, if_neg hqj, if_neg hqi]
        exact he

/-- In-range unfolding of `hcSwap`. -/
theorem hcSwap_eq (st : HeapState) (i j : Nat) (hi : i < st.heap.length)
    (hj : j < st.heap.length) :
    hcSwap st i j =
      { st with
        heap := (st.heap.set i (st.heap.getD j 0)).set j (st.heap.getD i 0),
        idx := fun x => if x = st.heap.getD i 0 then (j : Int)
          else if x = st.heap.getD j 0 then (i : Int) else st.idx x } := by
  unfold hcSwap
  rw [if_pos ⟨hi, hj⟩]

/-- `hcHeap.Swap` keeps the queue length. -/
theorem hcSwap_length (st : HeapState) (i j : Nat) :
    (hcSwap st i j).heap.length = st.heap.length := by
  unfold hcSwap
  split_ifs
  · simp
  · rfl

/-- `hcHeap.Swap` does not touch `seen`. -/
theorem hcSwap_seen (st : HeapState) (i j : Nat) : (hcSwap st i j).seen = st.seen := by
  unfold hcSwap
  split_ifs <;> rfl

/-- `hcHeap.Swap` re-establishes index synchronisation at both swapped
positions: every other position must be synchronised, while the session at
position `i` may instead carry a negative index (as happens transiently in
`unregister`). -/
theorem hcSwap_HSync (st : HeapState) (i j : Nat) (hi : i < st.heap.length)
    (hj : j < st.heap.length)
    (hsync : ∀ p, p < st.heap.length → p ≠ i → st.idx (st.heap.getD p 0) = (p : Int))
    (hbi : st.idx (st.heap.getD i 0) = (i : Int) ∨ st.idx (st.heap.getD i 0) < 0) :
    HSync (hcSwap st i j) := by
  intro p hp2
  have hp : p < st.heap.length := by rwa [hcSwap_length] at hp2
  rw [hcSwap_eq st i j hi hj]
  show (fun x => if x = st.heap.getD i 0 then (j : Int)
      else if x = st.heap.getD j 0 then (i : Int) else st.idx x)
    (((st.heap.set i (st.heap.getD j 0)).set j (st.heap.getD i 0)).getD p 0) = (p : Int)
  rw [swapList_getD st.heap i j p hi hj hp]
  by_cases hpj : p = j
  · rw [if_pos hpj]
    show (if st.heap.getD i 0 = st.heap.getD i 0 then (j : Int) else _) = (p : Int)
    rw [if_pos rfl, hpj]
  · rw [if_neg hpj]
    by_cases hpi : p = i
    · rw [if_pos hpi]
      have hij : i ≠ j := fun h => hpj (hpi.trans h)
      have hbna : st.heap.getD j 0 ≠ st.heap.getD i 0 := by
        intro hba
        have h2 : st.idx (st.heap.getD j 0) = (j : Int) := hsync j hj (fun h => hij h.symm)
        rw [hba] at h2
        rcases hbi with hb1 | hb1
        · rw [hb1] at h2
          exact hij (by exact_mod_cast h2)
        · rw [h2] at hb1
          omega
      show (if st.heap.getD j 0 = st.heap.getD i 0 then (j : Int)
        else if st.heap.getD j 0 = st.heap.getD j 0 then (i : Int) else _) = (p : Int)
      rw [if_neg hbna, if_pos rfl, hpi]
    · rw [if_neg hpi]
      have hcp : st.idx (st.heap.getD p 0) = (p : Int) := hsync p hp hpi
      have hcna : st.heap.getD p 0 ≠ st.heap.getD i 0 := by
        intro hca
        rw [hca] at hcp
        rcases hbi with hb1 | hb1
        · rw [hb1] at hcp
          exact hpi (by exact_mod_cast hcp.symm)
        · rw [hcp] at hb1
          omega
      have hcnb : st.heap.getD p 0 ≠ st.heap.getD j 0 := by
        intro hcb
        by_cases hij : i = j
        · rw [← hij] at hcb
          exact hcna hcb
        · have h2 : st.idx (st.heap.getD j 0) = (j : Int) := hsync j hj (fun h => hij h.symm)
          rw [hcb, h2] at hcp
          exact hpj (by exact_mod_cast hcp.symm)
      show (if st.heap.getD p 0 = st.heap.getD i 0 then (j : Int)
        else if st.heap.getD p 0 = st.heap.getD j 0 then (i : Int)
        else st.idx (st.heap.getD p 0)) = (p : Int)
      rw [if_neg hcna, if_neg hcnb]
      exact hcp

/-- `hcHeap.Swap` preserves the out-of-heap bookkeeping: it only rewrites the
indices of the two sessions it keeps in the heap. -/
theorem hcSwap_HOut (st : HeapState) (i j : Nat) (hout : HOut st) : HOut (hcSwap st i j) := by
  by_cases hrange : i < st.heap.length ∧ j < st.heap.length
  · obtain ⟨hi, hj⟩ := hrange
    intro id hseen hnm
    rw [hcSwap_eq st i j hi hj] at hseen hnm ⊢
    have hmem : ∀ x, x ∈ (st.heap.set i (st.heap.getD j 0)).set j (st.heap.getD i 0) ↔
        x ∈ st.heap := fun x => mem_swapList st.heap i j x hi hj
    have hna : id ≠ st.heap.getD i 0 := by
      intro h
      exact hnm ((hmem id).2 (h ▸ (mem_iff_getD _ _).2 ⟨i, hi, rfl⟩))
    have hnb : id ≠ st.heap.getD j 0 := by
      intro h
      exact hnm ((hmem id).2 (h ▸ (mem_iff_getD _ _).2 ⟨j, hj, rfl⟩))
    show (if id = st.heap.getD i 0 then (j : Int)
      else if id = st.heap.getD j 0 then (i : Int) else st.idx id) = -1
    rw [if_neg hna, if_neg hnb]
    exact hout id hseen (fun h => hnm ((hmem id).2 h))
  · unfold hcSwap
    rw [if_neg hrange]
    exact hout

/-- `hcHeap.Swap` preserves the full queue invariant. -/
theorem hcSwap_inv (st : HeapState) (i j : Nat) (hinv : HInv st) :
    HInv (hcSwap st i j) := by
  by_cases hrange : i < st.heap.length ∧ j < st.heap.length
  · exact ⟨hcSwap_HSync st i j hrange.1 hrange.2 (fun p hp _ => hinv.1 p hp)
      (Or.inl (hinv.1 i hrange.1)), hcSwap_HOut st i j hinv.2⟩
  · unfold hcSwap
    rw [if_neg hrange]
    exact hinv

/-- `hcHeap.Push` of a session not currently in the heap preserves the queue
invariant (and records the session as seen). -/
theorem hcPush_inv (st : HeapState) (id : Nat) (t : Int) (hnm : id ∉ st.heap)
    (hinv : HInv st) : HInv (hcPush st id t) := by
  constructor
  · intro p hp
    have hlen : (hcPush st id t).heap.length = st.heap.length + 1 := by
      show (st.heap ++ [id]).length = st.heap.length + 1
      simp
    rw [hlen] at hp
    show (fun x => if x = id then (st.heap.length : Int) else st.idx x)
      ((st.heap ++ [id]).getD p 0) = (p : Int)
    by_cases hpl : p = st.heap.length
    · subst hpl
      have hg : (st.heap ++ [id]).getD st.heap.length 0 = id := by
        rw [List.getD_eq_getElem _ 0 (by simp)]
        exact List.getElem_concat_length st.heap id st.heap.length rfl (by simp)
      rw [hg]
      show (if id = id then (st.heap.length : Int) else st.idx id) = (st.heap.length : Int)
      rw [if_pos rfl]
    · have hp2 : p < st.heap.length := by omega
      rw [List.getD_append st.heap [id] 0 p hp2]
      have hne : st.heap.getD p 0 ≠ id :=
        fun h => hnm (h ▸ (mem_iff_getD _ _).2 ⟨p, hp2, rfl⟩)
      show (if st.heap.getD p 0 = id then (st.heap.length : Int)
        else st.idx (st.heap.getD p 0)) = (p : Int)
      rw [if_neg hne]
      exact hinv.1 p hp2
  · intro x hseen hnm2
    have hxid : x ≠ id := by
      intro h
      subst h
      exact hnm2 (show x ∈ st.heap ++ [x] by simp)
    show (if x = id then (st.heap.length : Int) else st.idx x) = -1
    rw [if_neg hxid]
    have hseen2 : x ∈ st.seen := by
      have : x ∈ id :: st.seen := hseen
      rcases List.mem_cons.1 this with h | h
      · exact absurd h hxid
      · exact h
    refine hinv.2 x hseen2 (fun h => hnm2 ?_)
    show x ∈ st.heap ++ [id]
    exact List.mem_append.2 (Or.inl h)

/-- `hcHeap.Pop` preserves the queue invariant and gives the popped session
index `-1`; the last position itself is allowed to be unsynchronised provided
its stored index is negative (as happens transiently in `unregister`). -/
theorem hcPopLast_inv (st : HeapState)
    (hsync : ∀ p, p < st.heap.length → p ≠ st.heap.length - 1 →
      st.idx (st.heap.getD p 0) = (p : Int))
    (hb : st.heap = [] ∨
      st.idx (st.heap.getD (st.heap.length - 1) 0) = ((st.heap.length - 1 : Nat) : Int) ∨
      st.idx (st.heap.getD (st.heap.length - 1) 0) < 0)
    (hout : HOut st) : HInv (hcPopLast st) := by
  unfold hcPopLast
  split
  next heq =>
    rw [List.getLast?_eq_none_iff] at heq
    refine ⟨fun p hp => ?_, hout⟩
    rw [heq] at hp
    simp at hp
  next lastid heq =>
    have hne : st.heap ≠ [] := by
      intro h
      rw [h] at heq
      simp at heq
    have hpos : 0 < st.heap.length := List.length_pos.2 hne
    have hlast : lastid = st.heap.getD (st.heap.length - 1) 0 := by
      rw [List.getLast?_eq_getLast st.heap hne] at heq
      have h1 : lastid = st.heap.getLast hne := by
        injection heq with h1
        exact h1.symm
      rw [h1, List.getLast_eq_getElem st.heap hne, List.getD_eq_getElem _ 0 (by omega)]
    constructor
    · intro p hp
      have hp2 : p < st.heap.length - 1 := by
        have : (hcPopLast st).heap.length = st.heap.dropLast.length := by
          unfold hcPopLast
          rw [heq]
        simpa using hp
      have hp3 : p < st.heap.length := by omega
      have hg : st.heap.dropLast.getD p 0 = st.heap.getD p 0 := by
        rw [List.getD_eq_getElem _ 0 (by simpa using hp2), List.getD_eq_getElem _ 0 hp3,
          List.getElem_dropLast]
      show (fun x => if x = lastid then (-1 : Int) else st.idx x)
        (st.heap.dropLast.getD p 0) = (p : Int)
      rw [hg]
      have hcp : st.idx (st.heap.getD p 0) = (p : Int) := hsync p hp3 (by omega)
      have hne2 : st.heap.getD p 0 ≠ lastid := by
        intro hcb
        rw [hlast] at hcb
        rw [hcb] at hcp
        rcases hb with hb1 | hb1 | hb1
        · exact hne hb1
        · have h5 := hcp.symm.trans hb1
          have h6 : st.heap.length - 1 = p := by exact_mod_cast h5.symm
          omega
        · rw [hcp] at hb1
          omega
      show (if st.heap.getD p 0 = lastid then (-1 : Int) else st.idx (st.heap.getD p 0)) =
        (p : Int)
      rw [if_neg hne2]
      exact hcp
    · intro x hseen hnm
      by_cases hxl : x = lastid
      · show (if x = lastid then (-1 : Int) else st.idx x) = -1
        rw [if_pos hxl]
      · show (if x = lastid then (-1 : Int) else st.idx x) = -1
        rw [if_neg hxl]
        refine hout x hseen (fun hxh => ?_)
        have hsplit : st.heap = st.heap.dropLast ++ [lastid] := by
          have h1 : lastid = st.heap.getLast hne := by
            rw [List.getLast?_eq_getLast st.heap hne] at heq
            injection heq with h1
            exact h1.symm
          rw [h1]
          exact (List.dropLast_append_getLast hne).symm
        rw [hsplit] at hxh
        rcases List.mem_append.1 hxh with h | h
        · exact hnm h
        · exact hxl (by simpa using h)

/-- `container/heap.down` preserves the queue invariant, the queue length and
`seen` (it only swaps). -/
theorem heapDownF_inv : ∀ (fuel : Nat) (st : HeapState) (i n : Nat), HInv st →
    HInv (heapDownF fuel st i n).1 ∧
    (heapDownF fuel st i n).1.heap.length = st.heap.length ∧
    (heapDownF fuel st i n).1.seen = st.seen := by
  intro fuel
  induction fuel with
  | zero => exact fun st i n hinv => ⟨hinv, rfl, rfl⟩
  | succ fuel ih =>
    intro st i n hinv
    rw [heapDownF]
    split_ifs with h1 h2
    · obtain ⟨ha, hb, hc⟩ := ih (hcSwap st i (downChild st i n)) (downChild st i n) n
        (hcSwap_inv st i _ hinv)
      exact ⟨ha, hb.trans (hcSwap_length st i _), hc.trans (hcSwap_seen st i _)⟩
    · exact ⟨hinv, rfl, rfl⟩
    · exact ⟨hinv, rfl, rfl⟩

/-- `container/heap.up` preserves the queue invariant, the queue length and
`seen`. -/
theorem heapUpF_inv : ∀ (fuel : Nat) (st : HeapState) (j : Nat), HInv st →
    HInv (heapUpF fuel st j) ∧
    (heapUpF fuel st j).heap.length = st.heap.length ∧
    (heapUpF fuel st j).seen = st.seen := by
  intro fuel
  induction fuel with
  | zero => exact fun st j hinv => ⟨hinv, rfl, rfl⟩
  | succ fuel ih =>
    intro st j hinv
    rw [heapUpF]
    split_ifs with h1
    · exact ⟨hinv, rfl, rfl⟩
    · obtain ⟨ha, hb, hc⟩ := ih (hcSwap st ((j - 1) / 2) j) ((j - 1) / 2)
        (hcSwap_inv st _ j hinv)
      exact ⟨ha, hb.trans (hcSwap_length st _ j), hc.trans (hcSwap_seen st _ j)⟩

/-- `container/heap.down` preserves the queue invariant (wrapper). -/
theorem heapDown_inv (st : HeapState) (i n : Nat) (hinv : HInv st) :
    HInv (heapDown st i n).1 ∧ (heapDown st i n).1.heap.length = st.heap.length ∧
    (heapDown st i n).1.seen = st.seen :=
  heapDownF_inv (n + 1) st i n hinv

/-- `container/heap.up` preserves the queue invariant (wrapper). -/
theorem heapUp_inv (st : HeapState) (j : Nat) (hinv : HInv st) :
    HInv (heapUp st j) ∧ (heapUp st j).heap.length = st.heap.length ∧
    (heapUp st j).seen = st.seen :=
  heapUpF_inv (j + 1) st j hinv

/-- `hcHeap.Pop` on a state whose positions are all synchronised preserves
the invariant. -/
theorem hcPopLast_inv_of (st : HeapState) (hinv : HInv st) : HInv (hcPopLast st) := by
  refine hcPopLast_inv st (fun p hp _ => hinv.1 p hp) ?_ hinv.2
  by_cases h : st.heap = []
  · exact Or.inl h
  · refine Or.inr (Or.inl (hinv.1 _ ?_))
    have := List.length_pos.2 h
    omega

/-- `container/heap.Push` of a fresh session preserves the queue
invariant. -/
theorem goHeapPush_inv (st : HeapState) (id : Nat) (t : Int) (hnm : id ∉ st.heap)
    (hinv : HInv st) : HInv (goHeapPush st id t) := by
  show HInv (heapUp (hcPush st id t) ((hcPush st id t).heap.length - 1))
  exact (heapUp_inv _ _ (hcPush_inv st id t hnm hinv)).1

/-- `container/heap.Pop` preserves the queue invariant. -/
theorem goHeapPop_inv (st : HeapState) (hinv : HInv st) : HInv (goHeapPop st) := by
  show HInv (hcPopLast
    (heapDown (hcSwap st 0 (st.heap.length - 1)) 0 (st.heap.length - 1)).1)
  exact hcPopLast_inv_of _ (heapDown_inv _ _ _ (hcSwap_inv st 0 _ hinv)).1

/-- `container/heap.Fix` preserves the queue invariant. -/
theorem goHeapFix_inv (st : HeapState) (i : Nat) (hinv : HInv st) :
    HInv (goHeapFix st i) := by
  show HInv (if (heapDown st i st.heap.length).2 = i
    then heapUp (heapDown st i st.heap.length).1 i else (heapDown st i st.heap.length).1)
  split_ifs
  · exact (heapUp_inv _ _ (heapDown_inv st i _ hinv).1).1
  · exact (heapDown_inv st i _ hinv).1

/-- `container/heap.Remove` preserves the queue invariant; position `i` is
allowed to be unsynchronised when its session's stored index is negative (the
transient state `unregister` creates). -/
theorem goHeapRemove_inv (st : HeapState) (i : Nat) (hi : i < st.heap.length)
    (hsync : ∀ p, p < st.heap.length → p ≠ i → st.idx (st.heap.getD p 0) = (p : Int))
    (hbi : st.idx (st.heap.getD i 0) = (i : Int) ∨ st.idx (st.heap.getD i 0) < 0)
    (hout : HOut st) : HInv (goHeapRemove st i) := by
  show HInv (if i = st.heap.length - 1 then hcPopLast st
    else hcPopLast
      (if (heapDown (hcSwap st i (st.heap.length - 1)) i (st.heap.length - 1)).2 = i
        then heapUp (heapDown (hcSwap st i (st.heap.length - 1)) i (st.heap.length - 1)).1 i
        else (heapDown (hcSwap st i (st.heap.length - 1)) i (st.heap.length - 1)).1))
  have hn : st.heap.length - 1 < st.heap.length := by omega
  have h1 : HInv (hcSwap st i (st.heap.length - 1)) :=
    ⟨hcSwap_HSync st i _ hi hn hsync hbi, hcSwap_HOut st i _ hout⟩
  have h2 := heapDown_inv (hcSwap st i (st.heap.length - 1)) i (st.heap.length - 1) h1
  split_ifs with heq hd
  · refine hcPopLast_inv st (fun p hp hp2 => hsync p hp (fun h => hp2 (h.trans heq))) ?_ hout
    rcases hbi with h | h
    · refine Or.inr (Or.inl ?_)
      rw [← heq]
      exact h
    · refine Or.inr (Or.inr ?_)
      rw [← heq]
      exact h
  · exact hcPopLast_inv_of _ (heapUp_inv _ i h2.1).1
  · exact hcPopLast_inv_of _ h2.1

/-- `healthChecker.unregister` preserves the queue invariant for any session
the checker has seen. -/
theorem hcUnregister_inv (st : HeapState) (id : Nat) (hseen : id ∈ st.seen)
    (hinv : HInv st) : HInv (hcUnregister st id) := by
  show HInv (if 0 ≤ st.idx id then goHeapRemove (setIdx st id (-1)) (st.idx id).toNat
    else setIdx st id (-1))
  split_ifs with hoi
  · have hidh : id ∈ st.heap := by
      by_contra hnm
      have h2 := hinv.2 id hseen hnm
      rw [h2] at hoi
      omega
    obtain ⟨k, hk, hkid⟩ := (mem_iff_getD _ _).1 hidh
    have hik : st.idx id = (k : Int) := by
      rw [← hkid]
      exact hinv.1 k hk
    have hknat : (st.idx id).toNat = k := by
      rw [hik]
      simp
    rw [hknat]
    refine goHeapRemove_inv (setIdx st id (-1)) k hk (fun p hp hpk => ?_) ?_ ?_
    · have hgp : st.heap.getD p 0 ≠ id := by
        intro h
        have h2 := hinv.1 p hp
        rw [h, hik] at h2
        exact hpk (by exact_mod_cast h2.symm)
      show (if st.heap.getD p 0 = id then (-1 : Int) else st.idx (st.heap.getD p 0)) = (p : Int)
      rw [if_neg hgp]
      exact hinv.1 p hp
    · right
      show (if st.heap.getD k 0 = id then (-1 : Int) else st.idx (st.heap.getD k 0)) < 0
      rw [if_pos hkid]
      omega
    · intro x hxs hxh
      have hxid : x ≠ id := by
        intro h
        subst h
        exact hxh hidh
      show (if x = id then (-1 : Int) else st.idx x) = -1
      rw [if_neg hxid]
      exact hinv.2 x hxs hxh
  · constructor
    · intro p hp
      have hgp : st.heap.getD p 0 ≠ id := by
        intro h
        have h2 := hinv.1 p hp
        rw [h] at h2
        rw [h2] at hoi
        exact hoi (by omega)
      show (if st.heap.getD p 0 = id then (-1 : Int) else st.idx (st.heap.getD p 0)) = (p : Int)
      rw [if_neg hgp]
      exact hinv.1 p hp
    · intro x hxs hxh
      by_cases hxid : x = id
      · show (if x = id then (-1 : Int) else st.idx x) = -1
        rw [if_pos hxid]
      · show (if x = id then (-1 : Int) else st.idx x) = -1
        rw [if_neg hxid]
        exact hinv.2 x hxs hxh

/-- Every guarded heap operation preserves the queue invariant. -/
theorem applyHOp_inv (st st' : HeapState) (op : HOp) (hinv : HInv st)
    (h : applyHOp st op = some st') : HInv st' := by
  cases op with
  | push id t =>
    simp only [applyHOp] at h
    split_ifs at h with hg
    rw [Option.some_inj] at h
    subst h
    exact goHeapPush_inv st id t hg hinv
  | pop =>
    simp only [applyHOp] at h
    split_ifs at h with hg
    rw [Option.some_inj] at h
    subst h
    exact goHeapPop_inv st hinv
  | swapAt i j =>
    simp only [applyHOp] at h
    split_ifs at h with hg
    rw [Option.some_inj] at h
    subst h
    exact hcSwap_inv st i j hinv
  | fix i =>
    simp only [applyHOp] at h
    split_ifs at h with hg
    rw [Option.some_inj] at h
    subst h
    exact goHeapFix_inv st i hinv
  | removeAt i =>
    simp only [applyHOp] at h
    split_ifs at h with hg
    rw [Option.some_inj] at h
    subst h
    exact goHeapRemove_inv st i hg (fun p hp _ => hinv.1 p hp) (Or.inl (hinv.1 i hg)) hinv.2
  | unreg id =>
    simp only [applyHOp] at h
    split_ifs at h with hg
    rw [Option.some_inj] at h
    subst h
    exact hcUnregister_inv st id hg hinv

/-- The queue invariant holds along every run of heap operations. -/
theorem runHOps_inv : ∀ (ops : List HOp) (st st' : HeapState),
    HInv st → runHOps st ops = some st' → HInv st' := by
  intro ops
  induction ops with
  | nil =>
    intro st st' hinv h
    rw [runHOps, Option.some_inj] at h
    subst h
    exact hinv
  | cons op rest ih =>
    intro st st' hinv h
    rw [runHOps] at h
    match hstep : applyHOp st op with
    | some st1 =>
      rw [hstep] at h
      exact ih st1 st' (applyHOp_inv st st1 op hinv hstep) h
    | none =>
      rw [hstep] at h
      exact absurd h (by simp)

/-- C9: after any sequence of Push, Pop, Swap, heap.Fix and heap.Remove
operations (plus unregister), every session at heap position `i` stores
`hcIndex = i`, every session that has left the heap stores `hcIndex = -1`,
and consequently `unregister` of an already-unregistered session is a
no-op. -/
theorem C9_heap_index_sync (ops : List HOp) (st : HeapState)
    (h : runHOps initHeapState ops = some st) :
    HSync st ∧
    (∀ id, id ∈ st.seen → id ∉ st.heap → st.idx id = -1) ∧
    (∀ id, id ∈ st.seen → id ∉ st.heap → applyHOp st (HOp.unreg id) = some st) := by
  have hinit : HInv initHeapState :=
    ⟨fun p hp => by simp [initHeapState] at hp, fun id hs _ => by simp [initHeapState] at hs⟩
  have hinv : HInv st := runHOps_inv ops initHeapState st hinit h
  refine ⟨hinv.1, hinv.2, fun id hs hh => ?_⟩
  have hidx : st.idx id = -1 := hinv.2 id hs hh
  show (if id ∈ st.seen then some (hcUnregister st id) else none) = some st
  rw [if_pos hs]
  congr 1
  show (if 0 ≤ st.idx id then goHeapRemove (setIdx st id (-1)) (st.idx id).toNat
    else setIdx st id (-1)) = st
  rw [if_neg (by rw [hidx]; omega)]
  show { st with idx := fun x => if x = id then (-1 : Int) else st.idx x } = st
  obtain ⟨hp, ix, ck, sn⟩ := st
  simp only [HeapState.mk.injEq, and_true, true_and]
  funext x
  by_cases hx : x = id
  · subst hx
    rw [if_pos rfl]
    exact hidx.symm
  · rw [if_neg hx]

/-- Witness for C9 along the concrete operation sequence `c9Ops`. -/
theorem C9_heap_index_sync_witness :
    HSync c9Final ∧
    (∀ id, id ∈ c9Final.seen → id ∉ c9Final.heap → c9Final.idx id = -1) ∧
    (∀ id, id ∈ c9Final.seen → id ∉ c9Final.heap →
      applyHOp c9Final (HOp.unreg id) = some c9Final) :=
  C9_heap_index_sync c9Ops c9Final rfl

end SpannerPool
